import Mathlib

/-!
Verification of the martin vector tile server core against its source.

The development shallowly embeds the two source files that the claims are
about: `src/pg/table_source.rs` (SQL template builder, config/source merger,
SRID resolution) and `src/srv/server.rs` (multi-source dispatcher, tile
handler, TileJSON merger).  Rust `String` values become Lean `String`,
`HashMap` becomes an association list (`List (String × String)` resp.
`List (String × Source)`; iteration order of a `HashMap` is arbitrary, and
no claim here depends on it), `u32`/`i32` become `Nat`/`Int` (no arithmetic
overflows anywhere near these claims: the values are only formatted), and
fallible Rust code returns `Except`/`Option`.
-/

namespace Martin

/-! ## Small helpers: decimal formatting and comma splitting -/

/-- Embedding of Rust `str::split(',')` on the characters of the id string:
splitting on every comma, keeping empty segments (so a leading, trailing or
doubled comma yields an empty segment), and yielding `[""]` on the empty
string — the same segmentation `source_ids.split(',')` produces in
`AppState::get_sources` (src/srv/server.rs:53). -/
def splitComma : List Char → List (List Char)
  | [] => [[]]
  | c :: rest =>
    if c = ',' then [] :: splitComma rest
    else
      match splitComma rest with
      | s :: ss => (c :: s) :: ss
      | [] => [[c]]

/-- The comma-separated segments of a source-ids string, as strings. -/
def splitIds (s : String) : List String :=
  (splitComma s.data).map (fun l => ⟨l⟩)

/-- Display of a Rust `u32` (used for `extent` and `buffer`): plain decimal. -/
def natDisplay (n : Nat) : String := Nat.repr n

/-- Display of a Rust `i32` (used for `srid`): decimal with optional sign. -/
def intDisplay (i : Int) : String := Int.repr i

/-- Display of a Rust `bool` (used for `clip_geom`). -/
def boolDisplay (b : Bool) : String := if b then "true" else "false"

/-! ## PostgreSQL escaping

Embedding of `postgres_protocol::escape::{escape_identifier, escape_literal}`
(an external crate, not under src/).  Modelled from the spec: §4.A "All
identifiers are quoted using the PostgreSQL identifier-escaping rule (double
quotes, doubled internal quotes). All string literals embedded are escaped
with the standard literal-escape rule", which is exactly what that crate
implements: identifiers are wrapped in double quotes with internal double
quotes doubled; literals are wrapped in single quotes with internal single
quotes and backslashes doubled, and prefixed by a space and `E` when the
input contains a backslash. -/

/-- Body of an escaped identifier: every internal double quote is doubled. -/
def escIdentBody : List Char → List Char
  | [] => []
  | c :: rest =>
    if c = '"' then c :: c :: escIdentBody rest else c :: escIdentBody rest

/-- PostgreSQL identifier escaping (see the section comment above). -/
def escape_identifier (s : String) : String :=
  "\"" ++ String.mk (escIdentBody s.data) ++ "\""

/-- Body of an escaped literal: internal quotes and backslashes are doubled. -/
def escLitBody : List Char → List Char
  | [] => []
  | c :: rest =>
    if c = '\'' ∨ c = '\\' then c :: c :: escLitBody rest
    else c :: escLitBody rest

/-- PostgreSQL literal escaping (see the section comment above). -/
def escape_literal (s : String) : String :=
  (if s.data.contains '\\' then " E" else "") ++ "'" ++
    String.mk (escLitBody s.data) ++ "'"

/-! ## The data model -/

/-- Lon/lat bounding box, as in the external `tilejson` crate's `Bounds`.
The crate stores `f64` coordinates; the claims about bounds only use their
order structure (widening union via componentwise min/max), so they are
modelled as `Int`. -/
structure Bounds where
  left : Int
  bottom : Int
  right : Int
  top : Int
deriving DecidableEq, Repr

/-- Widening union of two boxes: the `Add` impl of `tilejson::Bounds`
(external crate; modelled from the spec §4.G "element-wise widening union"). -/
def boundsUnion (a b : Bounds) : Bounds :=
  { left := min a.left b.left
    bottom := min a.bottom b.bottom
    right := max a.right b.right
    top := max a.top b.top }

instance : Add Bounds := ⟨boundsUnion⟩

/-- Embedding of `TableInfo` (declared in `src/pg/config.rs`, which is not
under src/; the fields and their types are those the spec §3 lists and
`src/pg/table_source.rs` uses).  `properties` maps column name to PG type
name and `prop_mapping` maps external property name to actual column name;
both are `HashMap`s in Rust, modelled as association lists in some iteration
order.  The opaque `unrecognized` config map is carried by no claim and is
omitted. -/
structure TableInfo where
  schema : String
  table : String
  geometry_column : String
  srid : Int
  extent : Option Nat
  buffer : Option Nat
  clip_geom : Option Bool
  geometry_type : Option String
  id_column : Option String
  minzoom : Option Nat
  maxzoom : Option Nat
  bounds : Option Bounds
  properties : List (String × String)
  prop_mapping : List (String × String)
deriving DecidableEq, Repr

/-- Modelled from the spec: `PgInfo::format_id` lives in `src/pg/config.rs`,
not under src/.  Per §4.A the MVT layer name is `'<schema.table.geom>'`, so
`format_id` renders the three components joined by dots. -/
def TableInfo.format_id (info : TableInfo) : String :=
  info.schema ++ "." ++ info.table ++ "." ++ info.geometry_column

/-- Lookup in a Rust `HashMap<String, String>` modelled as an association
list: the first binding of the key, if any. -/
def mapGetStr : List (String × String) → String → Option String
  | [], _ => none
  | (k, v) :: rest, key => if k = key then some v else mapGetStr rest key

/-- Embedding of `escape_with_alias` (src/pg/table_source.rs:58-69): render
one selected column, aliased when `prop_mapping` renames it. -/
def escape_with_alias (mapping : List (String × String)) (field : String) :
    String :=
  let column := (mapGetStr mapping field).getD field
  if field ≠ column then
    ", " ++ escape_identifier column ++ " AS " ++ escape_identifier field
  else
    ", " ++ escape_identifier column

/-- The `properties` fragment of the tile query: one `escape_with_alias`
rendering per property key, concatenated in iteration order
(src/pg/table_source.rs:96-103; an empty map yields the empty string). -/
def propsFrag (mapping : List (String × String)) :
    List (String × String) → String
  | [] => ""
  | (k, _) :: rest => escape_with_alias mapping k ++ propsFrag mapping rest

/-- Default extent from src/pg/table_source.rs:12. -/
def DEFAULT_EXTENT : Nat := 4096

/-- Default buffer from src/pg/table_source.rs:13. -/
def DEFAULT_BUFFER : Nat := 64

/-- Default clip_geom from src/pg/table_source.rs:14. -/
def DEFAULT_CLIP_GEOM : Bool := true

/-- The `bbox_search` expression (src/pg/table_source.rs:117-130).  The
margin argument of the second branch is the Rust display of the `f64`
quotient `buffer / extent`; floating-point formatting is outside the
embedding, so the rendered digits are passed in as `marginStr` (see
`marginChars` for the character set `f64` display can produce). -/
def bbox_search (buffer : Nat) (supports_tile_margin : Bool)
    (marginStr : String) : String :=
  if buffer = 0 then
    "ST_TileEnvelope($1::integer, $2::integer, $3::integer)"
  else if supports_tile_margin then
    "ST_TileEnvelope($1::integer, $2::integer, $3::integer, margin => " ++
      marginStr ++ ")"
  else
    "ST_TileEnvelope($1::integer, $2::integer, $3::integer)"

/-- Characters Rust `f64` display can produce for `buffer as f64 / extent
as f64`: digits, a decimal point, a sign, and the letters of `inf`/`NaN`
(all alphanumeric).  Never a quote, a dollar sign, a backslash, a NUL or a
semicolon. -/
def marginChars (s : String) : Bool :=
  s.data.all (fun c => c.isAlphanum || c = '.' || c = '-')

/-- Embedding of the tile query built by `table_to_query`
(src/pg/table_source.rs:132-158).  The Rust code renders a raw-string
template whose first and last characters are newlines and then calls
`.trim()`; since the template body starts with `S` and ends with `e`
(non-whitespace), the trim removes exactly that outer newline pair, and the
trimmed string is written here directly. -/
def build_query (info : TableInfo) (supports_tile_margin : Bool)
    (marginStr : String) : String :=
  let extent := info.extent.getD DEFAULT_EXTENT
  let buffer := info.buffer.getD DEFAULT_BUFFER
  let properties := propsFrag info.prop_mapping info.properties
  let id_name :=
    match info.id_column with
    | some id_column => ", " ++ escape_literal id_column
    | none => ""
  let id_field :=
    match info.id_column with
    | some id_column => escape_with_alias info.prop_mapping id_column
    | none => ""
  "SELECT\n  ST_AsMVT(tile, " ++ escape_literal info.format_id ++ ", " ++
    natDisplay extent ++ ", 'geom'" ++ id_name ++
    ")\nFROM (\n  SELECT\n    ST_AsMVTGeom(\n        ST_Transform(ST_CurveToLine(" ++
    escape_identifier info.geometry_column ++
    "), 3857),\n        ST_TileEnvelope($1::integer, $2::integer, $3::integer),\n        " ++
    natDisplay extent ++ ", " ++ natDisplay buffer ++ ", " ++
    boolDisplay (info.clip_geom.getD DEFAULT_CLIP_GEOM) ++
    "\n    ) AS geom\n    " ++ id_field ++ properties ++ "\n  FROM\n    " ++
    escape_identifier info.schema ++ "." ++ escape_identifier info.table ++
    "\n  WHERE\n    " ++ escape_identifier info.geometry_column ++
    " && ST_Transform(" ++ bbox_search buffer supports_tile_margin marginStr ++
    ", " ++ intDisplay info.srid ++ ")\n) AS tile"

/-- Modelled from the spec: `src/pg/scripts/get_bounds.sql` is not under
src/.  Per §4.B it is a fixed SQL template computing the table's bounds;
`table_to_query` (src/pg/table_source.rs:76-82) interpolates `schema`,
`table`, `srid` and `geometry_column` into it with plain `format!`, applying
no identifier or literal escaping to any of them. -/
def boundsQuery (info : TableInfo) : String :=
  "SELECT ST_Transform(ST_SetSRID(ST_Extent(" ++ info.geometry_column ++
    ")::geometry, " ++ intDisplay info.srid ++ "), 4326) AS bounds FROM " ++
    info.schema ++ "." ++ info.table

/-- Embedding of `PgSqlInfo` (declared in `src/pg/pg_source.rs`, not under
src/; fields per spec §3: the compiled SQL, the `use_url_query` flag, and
the human-readable id). -/
structure PgSqlInfo where
  sql : String
  use_url_query : Bool
  id : String
deriving DecidableEq, Repr

/-- Constructor call `PgSqlInfo::new(query, false, info.format_id())`. -/
def PgSqlInfo.new (sql : String) (use_url_query : Bool) (id : String) :
    PgSqlInfo :=
  { sql := sql, use_url_query := use_url_query, id := id }

/-- A pooled connection: `query_one` runs one SQL text and either fails or
returns the single row's `bounds` column, a nullable PostGIS polygon
(modelled as an opaque `String` payload). -/
structure PgConn where
  query_one : String → Except String (Option String)

/-- The connection pool interface `table_to_query` uses: async `get()`
(which may fail) and the PostGIS-version flag `supports_tile_margin()`
detected at pool init (spec §4.A). -/
structure Pool where
  get : Except String PgConn
  supports_tile_margin : Bool

/-- Embedding of `table_to_query` (src/pg/table_source.rs:71-161).
`polygon_to_bbox` (from `src/pg/utils.rs`, not under src/) converts the
polygon payload into a bbox and is passed in as a function; `marginStr` is
the rendered `f64` margin (see `bbox_search`).  Control flow follows the
source: when `info.bounds` is `None`, `pool.get()` is awaited with `?` (its
failure propagates), then the bounds query runs and its outcome is turned
into an `Option` with `.ok().flatten().and_then(polygon_to_bbox)` — a query
failure is swallowed. -/
def table_to_query (id : String) (info : TableInfo) (pool : Pool)
    (polygon_to_bbox : String → Option Bounds) (marginStr : String) :
    Except String (String × PgSqlInfo × TableInfo) := do
  let bounds_query := boundsQuery info
  let info ←
    if info.bounds.isNone then
      match pool.get with
      | .error e => .error e
      | .ok conn =>
        .ok { info with
              bounds :=
                ((conn.query_one bounds_query).toOption.join).bind
                  polygon_to_bbox }
    else
      .ok info
  let query := build_query info pool.supports_tile_margin marginStr
  .ok (id, PgSqlInfo.new query false info.format_id, info)

/-! ## SRID resolution and config/source merging -/

/-- Embedding of `calc_srid` (src/pg/table_source.rs:201-226).  The two
name arguments feed only log messages. -/
def calc_srid (_table_id _new_id : String) (src_srid cfg_srid : Int)
    (default_srid : Option Int) : Option Int :=
  match src_srid, cfg_srid, default_srid with
  | 0, 0, some d => some d
  | 0, 0, none => none
  | 0, cfg, _ => some cfg
  | src, 0, _ => some src
  | src, cfg, _ => if src ≠ cfg then none else some cfg

/-- Modelled from the spec: `crate::utils::normalize_key` lives in
`src/utils.rs`, not under src/.  Per §4.C it is a case-insensitive,
punctuation-insensitive single-match lookup of the key among the source
properties' column names, where ambiguity (or no match) rejects the source;
this normalization keeps only alphanumeric characters, lowercased. -/
def normKeyStr (s : String) : String :=
  String.mk ((s.data.filter Char.isAlphanum).map Char.toLower)

/-- The single matching column name of `key` in `props`, when exactly one
column normalizes to the same string (see `normKeyStr`). -/
def normalize_key (props : List (String × String)) (key : String) :
    Option String :=
  match props.filter (fun kv => normKeyStr kv.1 = normKeyStr key) with
  | [(k, _)] => some k
  | _ => none

/-- The `for key in cfg_inf.properties.keys()` loop of `merge_table_info`
(src/pg/table_source.rs:193-196): resolve every configured property key
against the source columns, failing if any lookup fails. -/
def mapProps (srcProps : List (String × String)) :
    List String → Option (List (String × String))
  | [] => some []
  | k :: rest =>
    match normalize_key srcProps k with
    | none => none
    | some prop => (mapProps srcProps rest).map (fun m => (k, prop) :: m)

/-- Embedding of `merge_table_info` (src/pg/table_source.rs:163-199):
carry schema/table/geometry_column from the source of truth, resolve the
SRID via `calc_srid` (`?`), keep the remaining fields from the config,
reset `prop_mapping`, then populate it from `id_column` and the configured
properties (each lookup `?`-propagating).  The geometry-type comparison
only logs and is not modelled. -/
def merge_table_info (default_srid : Option Int) (new_id : String)
    (cfg_inf src_inf : TableInfo) : Option TableInfo := do
  let srid ← calc_srid src_inf.format_id new_id src_inf.srid cfg_inf.srid
    default_srid
  let idMapping ←
    match cfg_inf.id_column with
    | some id_column =>
      (normalize_key src_inf.properties id_column).map
        (fun prop => [(id_column, prop)])
    | none => some []
  let propMapping ← mapProps src_inf.properties (cfg_inf.properties.map (·.1))
  some { cfg_inf with
         schema := src_inf.schema
         table := src_inf.table
         geometry_column := src_inf.geometry_column
         srid := srid
         prop_mapping := idMapping ++ propMapping }

/-! ## The HTTP server core (src/srv/server.rs) -/

/-- Embedding of `martin_tile_utils::DataFormat` (external crate): the tile
payload format of a source.  Modelled from the spec §3/§4.F; three
representative variants suffice for every claim. -/
inductive DataFormat where
  | mvt
  | png
  | json
deriving DecidableEq, Repr

/-- The `Debug` rendering of a `DataFormat`, as interpolated into the
format-mismatch error message by `{fmt:?}`. -/
def DataFormat.debugName : DataFormat → String
  | .mvt => "Mvt"
  | .png => "Png"
  | .json => "Json"

/-- The `Content-Type` of a format (spec §6: MVT tiles are served as
`application/x-protobuf`). -/
def DataFormat.content_type : DataFormat → String
  | .mvt => "application/x-protobuf"
  | .png => "image/png"
  | .json => "application/json"

/-- Embedding of `tilejson::TileJSON` (external crate), with the fields
`merge_tilejson` reads and writes plus representative carried-over fields
(spec §4.G: name, description, attribution, vector_layers, scheme, tiles).
Zoom levels are `u8` in the crate, modelled as `Nat`; vector layers are
opaque payloads modelled as `String`. -/
structure TileJSON where
  minzoom : Option Nat
  maxzoom : Option Nat
  bounds : Option Bounds
  name : Option String
  description : Option String
  attribution : Option String
  scheme : Option String
  vector_layers : Option (List String)
  tiles : List String
deriving DecidableEq, Repr

/-- The tile coordinate triple (src/source.rs, not under src/; spec §3
gives the definition: signed integers z, x, y). -/
structure Xyz where
  z : Int
  x : Int
  y : Int
deriving DecidableEq, Repr

/-- Embedding of the `Source` capability (spec §3/§4.D): a `TileJSON`, a
format, the zoom-validity predicate, and `get_tile` — async and fallible in
Rust, modelled as a function into `Except` (the tile bytes are `Vec<u8>`,
modelled as `List UInt8`). -/
structure Source where
  tilejson : TileJSON
  format : DataFormat
  is_valid_zoom : Int → Bool
  get_tile : Xyz → List (String × String) → Except String (List UInt8)

/-- The `Sources` map `HashMap<String, Box<dyn Source>>`, modelled as an
association list. -/
def Sources := List (String × Source)

/-- Lookup in the `Sources` map: the first binding of the id, if any. -/
def sourcesGet : List (String × Source) → String → Option Source
  | [], _ => none
  | (k, v) :: rest, key => if k = key then some v else sourcesGet rest key

/-- An actix-web error as the handlers build it: an HTTP status code and a
message (`error::ErrorNotFound` carries 404, `ErrorInternalServerError`
carries 500). -/
structure ApiError where
  status : Nat
  message : String
deriving DecidableEq, Repr

/-- The `error::ErrorNotFound(...)` constructor. -/
def errorNotFound (message : String) : ApiError :=
  { status := 404, message := message }

/-- The `map_internal_error` helper (src/srv/server.rs:118-121): log and
convert to a 500. -/
def map_internal_error (e : String) : ApiError :=
  { status := 500, message := e }

/-- The body of the `for id in source_ids.split(',')` loop of
`AppState::get_sources` (src/srv/server.rs:53-74), with the accumulated
source vector and the expected-format state threaded explicitly: a missing
id fails; a zoom-invalid source is skipped before the format check; a
format mismatch fails; otherwise the source is pushed. -/
def get_sources_loop (state : List (String × Source)) (zoom : Option Int) :
    List String → List Source → Option DataFormat →
    Except ApiError (List Source × Option DataFormat)
  | [], acc, fmt => .ok (acc, fmt)
  | id :: rest, acc, fmt =>
    match sourcesGet state id with
    | none => .error (errorNotFound ("Source " ++ id ++ " does not exist"))
    | some src =>
      if (match zoom with
          | some z => !src.is_valid_zoom z
          | none => false) then
        get_sources_loop state zoom rest acc fmt
      else
        match fmt with
        | some f =>
          if f = src.format then
            get_sources_loop state zoom rest (acc ++ [src]) (some f)
          else
            .error (errorNotFound ("Cannot merge sources with " ++
              f.debugName ++ " with " ++ src.format.debugName))
        | none => get_sources_loop state zoom rest (acc ++ [src])
            (some src.format)

/-- Embedding of `AppState::get_sources` (src/srv/server.rs:45-77): run the
loop over the comma-separated ids, then fail with `No valid sources found`
when no source set the format. -/
def get_sources (state : List (String × Source)) (source_ids : String)
    (zoom : Option Int) : Except ApiError (List Source × DataFormat) :=
  match get_sources_loop state zoom (splitIds source_ids) [] none with
  | .error e => .error e
  | .ok (_, none) => .error (errorNotFound "No valid sources found")
  | .ok (srcs, some f) => .ok (srcs, f)

/-- Embedding of `futures::future::try_join_all` over the already-launched
tile futures: all succeed and the outputs keep the input order (the
contract of `try_join_all`, an external crate), or some future fails and
one failure is surfaced (modelled as the first in list order; no claim
depends on which one). -/
def try_join_all : List (Except String (List UInt8)) →
    Except String (List (List UInt8))
  | [] => .ok []
  | r :: rest =>
    match r with
    | .error e => .error e
    | .ok bytes =>
      match try_join_all rest with
      | .error e => .error e
      | .ok tails => .ok (bytes :: tails)

/-- An HTTP response as the tile handler builds one: status, optional
`Content-Type`, body bytes. -/
structure HttpResponse where
  status : Nat
  contentType : Option String
  body : List UInt8
deriving DecidableEq, Repr

/-- Embedding of the `get_tile` handler (src/srv/server.rs:237-265):
resolve the sources with the request zoom, fetch all tiles, concatenate the
byte buffers in source order, and answer 204 with the format's content type
on an empty concatenation, else 200. -/
def get_tile_handler (state : List (String × Source)) (source_ids : String)
    (z x y : Int) (query : List (String × String)) :
    Except ApiError HttpResponse :=
  match get_sources state source_ids (some z) with
  | .error e => .error e
  | .ok (srcs, format) =>
    match try_join_all (srcs.map (fun s => s.get_tile ⟨z, x, y⟩ query)) with
    | .error e => .error (map_internal_error e)
    | .ok tiles =>
      let tile := tiles.flatten
      if tile.length = 0 then
        .ok { status := 204, contentType := some format.content_type,
              body := [] }
      else
        .ok { status := 200, contentType := some format.content_type,
              body := tile }

/-- First block of the `reduce` closure in `merge_tilejson`
(src/srv/server.rs:203-211): fold the minzoom down. -/
def mergeMinzoom (accum tj : TileJSON) : TileJSON :=
  match tj.minzoom with
  | some minzoom =>
    match accum.minzoom with
    | some a =>
      if a > minzoom then { accum with minzoom := tj.minzoom } else accum
    | none => { accum with minzoom := tj.minzoom }
  | none => accum

/-- Second block of the `reduce` closure (src/srv/server.rs:212-220): fold
the maxzoom up. -/
def mergeMaxzoom (accum tj : TileJSON) : TileJSON :=
  match tj.maxzoom with
  | some maxzoom =>
    match accum.maxzoom with
    | some a =>
      if a < maxzoom then { accum with maxzoom := tj.maxzoom } else accum
    | none => { accum with maxzoom := tj.maxzoom }
  | none => accum

/-- Third block of the `reduce` closure (src/srv/server.rs:221-227): widen
the bounds. -/
def mergeBounds (accum tj : TileJSON) : TileJSON :=
  match tj.bounds with
  | some bounds =>
    match accum.bounds with
    | some a => { accum with bounds := some (a + bounds) }
    | none => { accum with bounds := tj.bounds }
  | none => accum

/-- One step of the `reduce` closure in `merge_tilejson`
(src/srv/server.rs:202-230): the three mutation blocks in sequence; every
other field of the accumulator is left alone. -/
def mergePair (accum tj : TileJSON) : TileJSON :=
  mergeBounds (mergeMaxzoom (mergeMinzoom accum tj) tj) tj

/-- Embedding of `merge_tilejson` (src/srv/server.rs:198-235): map the
sources to their TileJSONs, `reduce` with `mergePair`, and push the tiles
URL.  The Rust code unwraps the reduction with
`.expect("nonempty sources iter")`; the panic on an empty source list is
modelled as `none`. -/
def merge_tilejson (sources : List Source) (tiles_url : String) :
    Option TileJSON :=
  match sources.map (fun s => s.tilejson) with
  | [] => none
  | t :: rest =>
    let tilejson := rest.foldl mergePair t
    some { tilejson with tiles := tilejson.tiles ++ [tiles_url] }

/-! ## Specification-side string analysis

The two claims about the generated SQL text are stated with the two little
scanners below: `params` extracts the positional-parameter placeholders of
an SQL string, and `scan` lexes an SQL string by the PostgreSQL quoting
rules and collects the characters standing outside every quoted token. -/

/-- The character following each `$` of the string, in order: `params s`
lists one entry per occurrence of a parameter placeholder `$n` (the SQL
built here never writes a bare trailing `$`, and a placeholder is a `$`
and one digit). -/
def params : List Char → List Char
  | [] => []
  | ['$'] => []
  | '$' :: c :: rest => c :: params (c :: rest)
  | _ :: rest => params rest

/-- Lexer state for `scan`: outside any quoted token; inside a
double-quoted identifier; just after a quote inside an identifier (a second
quote means an escaped quote, anything else closes the token); and the two
analogous states for single-quoted literals. -/
inductive ScanState where
  | out
  | ident
  | identQ
  | lit
  | litQ
deriving DecidableEq, Repr

/-- Scan an SQL string with the PostgreSQL quoting rules (double-quoted
identifiers and single-quoted literals, each escaping its own quote by
doubling), returning the characters outside every quoted token, or `none`
when a quoted token is left unterminated.  Quote characters acting as
delimiters are consumed, not reported. -/
def scan : ScanState → List Char → Option (List Char)
  | .out, [] => some []
  | .out, c :: rest =>
    if c = '"' then scan .ident rest
    else if c = '\'' then scan .lit rest
    else (scan .out rest).map (fun l => c :: l)
  | .ident, [] => none
  | .ident, c :: rest =>
    if c = '"' then scan .identQ rest else scan .ident rest
  | .identQ, [] => some []
  | .identQ, c :: rest =>
    if c = '"' then scan .ident rest
    else if c = '\'' then scan .lit rest
    else (scan .out rest).map (fun l => c :: l)
  | .lit, [] => none
  | .lit, c :: rest =>
    if c = '\'' then scan .litQ rest else scan .lit rest
  | .litQ, [] => some []
  | .litQ, c :: rest =>
    if c = '\'' then scan .lit rest
    else if c = '"' then scan .ident rest
    else (scan .out rest).map (fun l => c :: l)

/-- The characters the identifier-safety claim names as dangerous: a double
quote, a backslash, a NUL, and a semicolon. -/
def badSqlChar (c : Char) : Bool :=
  c = '"' || c = '\\' || c = ';' || c = Char.ofNat 0

/-- No name interpolated into the tile query contains a dollar sign: the
hypothesis under which the placeholder count of the query is exact (a `$`
inside a quoted name would add a spurious substring occurrence). -/
def namesDollarFree (info : TableInfo) : Bool :=
  !info.schema.data.contains '$' &&
  !info.table.data.contains '$' &&
  !info.geometry_column.data.contains '$' &&
  (match info.id_column with
   | some s => !s.data.contains '$'
   | none => true) &&
  info.properties.all (fun kv => !kv.1.data.contains '$') &&
  info.prop_mapping.all (fun kv => !kv.2.data.contains '$')

/-- Specification-side device for the two SQL-text claims: the query is a
sequence of segments — raw pieces taken verbatim (fixed SQL text, rendered
numbers and booleans, the margin), escaped identifiers, and escaped
literals. -/
inductive Seg where
  | raw (l : List Char)
  | idSeg (s : String)
  | litSeg (s : String)

/-- The characters a segment contributes to the SQL text. -/
def renderSeg : Seg → List Char
  | .raw l => l
  | .idSeg s => (escape_identifier s).data
  | .litSeg s => (escape_literal s).data

/-- The characters of a whole segment sequence. -/
def renderSegs : List Seg → List Char
  | [] => []
  | s :: rest => renderSeg s ++ renderSegs rest

/-- Segment form of `escape_with_alias`. -/
def ewaSegs (mapping : List (String × String)) (field : String) :
    List Seg :=
  let column := (mapGetStr mapping field).getD field
  if field ≠ column then
    [.raw ", ".data, .idSeg column, .raw " AS ".data, .idSeg field]
  else
    [.raw ", ".data, .idSeg column]

/-- Segment form of the `properties` fragment. -/
def propsSegs (mapping : List (String × String)) :
    List (String × String) → List Seg
  | [] => []
  | (k, _) :: rest => ewaSegs mapping k ++ propsSegs mapping rest

/-- Segment form of `bbox_search`. -/
def bboxSegs (buffer : Nat) (sm : Bool) (marginStr : String) : List Seg :=
  if buffer = 0 then
    [.raw "ST_TileEnvelope($1::integer, $2::integer, $3::integer)".data]
  else if sm then
    [.raw "ST_TileEnvelope($1::integer, $2::integer, $3::integer, margin => ".data,
     .raw marginStr.data, .raw ")".data]
  else
    [.raw "ST_TileEnvelope($1::integer, $2::integer, $3::integer)".data]

/-- Segment form of the whole tile query built by `build_query`
(equality proved in `build_query_data_eq`). -/
def querySegs (info : TableInfo) (sm : Bool) (marginStr : String) :
    List Seg :=
  [Seg.raw "SELECT\n  ST_AsMVT(tile, ".data,
   Seg.litSeg info.format_id,
   Seg.raw ", ".data,
   Seg.raw (natDisplay (info.extent.getD DEFAULT_EXTENT)).data,
   Seg.raw ", ".data,
   Seg.litSeg "geom"] ++
  (match info.id_column with
   | some idc => [Seg.raw ", ".data, Seg.litSeg idc]
   | none => []) ++
  [Seg.raw ")\nFROM (\n  SELECT\n    ST_AsMVTGeom(\n        ST_Transform(ST_CurveToLine(".data,
   Seg.idSeg info.geometry_column,
   Seg.raw "), 3857),\n        ST_TileEnvelope($1::integer, $2::integer, $3::integer),\n        ".data,
   Seg.raw (natDisplay (info.extent.getD DEFAULT_EXTENT)).data,
   Seg.raw ", ".data,
   Seg.raw (natDisplay (info.buffer.getD DEFAULT_BUFFER)).data,
   Seg.raw ", ".data,
   Seg.raw (boolDisplay (info.clip_geom.getD DEFAULT_CLIP_GEOM)).data,
   Seg.raw "\n    ) AS geom\n    ".data] ++
  (match info.id_column with
   | some idc => ewaSegs info.prop_mapping idc
   | none => []) ++
  propsSegs info.prop_mapping info.properties ++
  [Seg.raw "\n  FROM\n    ".data,
   Seg.idSeg info.schema,
   Seg.raw ".".data,
   Seg.idSeg info.table,
   Seg.raw "\n  WHERE\n    ".data,
   Seg.idSeg info.geometry_column,
   Seg.raw " && ST_Transform(".data] ++
  bboxSegs (info.buffer.getD DEFAULT_BUFFER) sm marginStr ++
  [Seg.raw ", ".data,
   Seg.raw (intDisplay info.srid).data,
   Seg.raw ")\n) AS tile".data]

/-- The characters a segment leaves outside every quoted token. -/
def segOuts : Seg → List Char
  | .raw l => l
  | .idSeg _ => []
  | .litSeg s => if s.data.contains '\\' then [' ', 'E'] else []

/-- Scanning side conditions for a segment sequence: raw pieces hold no
quote character, and no quoted segment is directly followed by its own
quote character (which SQL would read as an escaped quote). -/
def segsScanOk : List Seg → Prop
  | [] => True
  | .raw l :: rest => (∀ c ∈ l, c ≠ '"' ∧ c ≠ '\'') ∧ segsScanOk rest
  | .idSeg _ :: rest =>
    (renderSegs rest).head? ≠ some '"' ∧ segsScanOk rest
  | .litSeg _ :: rest =>
    (renderSegs rest).head? ≠ some '\'' ∧ segsScanOk rest

/-- Specification-side helper: combine two optional values with `op`,
treating an absent side as the identity — the shape of each block of the
TileJSON `reduce` closure. -/
def ocomb {α : Type} (op : α → α → α) : Option α → Option α → Option α
  | x, none => x
  | none, some v => some v
  | some a, some v => some (op a v)

/-- Specification-side helper: combine a whole list with `op`, `none` on
the empty list.  At `min`/`max` this is the library's `List.min?` and
`List.max?`; at the bounds union it is the "element-wise widening union of
the present bounds" of spec §4.G. -/
def listComb {α : Type} (op : α → α → α) : List α → Option α
  | [] => none
  | b :: bs => some (bs.foldl op b)

/-- Specification-side helper: resolve every id of the list in the
`Sources` map, `none` when any id is absent.  Used to state the hypothesis
"every listed source ID exists" of the dispatcher claims. -/
def lookupAll (state : List (String × Source)) :
    List String → Option (List Source)
  | [] => some []
  | id :: rest =>
    match sourcesGet state id with
    | none => none
    | some s => (lookupAll state rest).map (fun l => s :: l)

/-! ## Concrete inputs used by witnesses and counterexamples -/

/-- An empty TileJSON. -/
def tjEmpty : TileJSON :=
  { minzoom := none, maxzoom := none, bounds := none, name := none,
    description := none, attribution := none, scheme := none,
    vector_layers := none, tiles := [] }

/-- An MVT source accepting every zoom and serving two bytes. -/
def srcA : Source :=
  { tilejson := tjEmpty, format := .mvt, is_valid_zoom := fun _ => true,
    get_tile := fun _ _ => .ok [1, 2] }

/-- An MVT source accepting every zoom and serving one byte. -/
def srcB : Source :=
  { tilejson := tjEmpty, format := .mvt, is_valid_zoom := fun _ => true,
    get_tile := fun _ _ => .ok [3] }

/-- A PNG source accepting every zoom. -/
def srcPng : Source :=
  { tilejson := tjEmpty, format := .png, is_valid_zoom := fun _ => true,
    get_tile := fun _ _ => .ok [9] }

/-- An MVT source rejecting every zoom. -/
def srcNoZoom : Source :=
  { tilejson := tjEmpty, format := .mvt, is_valid_zoom := fun _ => false,
    get_tile := fun _ _ => .ok [7] }

/-- Two same-format sources. -/
def stateAB : List (String × Source) := [("a", srcA), ("b", srcB)]

/-- Two sources of different formats. -/
def stateMix : List (String × Source) := [("a", srcPng), ("b", srcB)]

/-- One source that filters out every zoom. -/
def stateNoZoom : List (String × Source) := [("a", srcNoZoom)]

/-- A representative finalized `TableInfo` with the source defaults. -/
def dInfo : TableInfo :=
  { schema := "public", table := "tbl", geometry_column := "geom",
    srid := 4326, extent := some 4096, buffer := some 64,
    clip_geom := some true, geometry_type := none, id_column := none,
    minzoom := none, maxzoom := none, bounds := none,
    properties := [], prop_mapping := [] }

/-- The `dInfo` table with a semicolon in the schema name. -/
def dInfoSemi : TableInfo := { dInfo with schema := "a;b" }

/-- The `dInfo` table with an unresolved (zero) SRID. -/
def dInfoSrid0 : TableInfo := { dInfo with srid := 0 }

/-- A pool whose connection acquisition fails. -/
def poolGetFail : Pool :=
  { get := .error "connection failed", supports_tile_margin := true }

/-- A connection whose queries all fail. -/
def connQueryFail : PgConn :=
  { query_one := fun _ => .error "query failed" }

/-- A pool that hands out the failing connection. -/
def poolQueryFail : Pool :=
  { get := .ok connQueryFail, supports_tile_margin := false }

/-! ## Theorems -/

/-- Helper: closed-form characterization of the `calc_srid` match, in the
order of its arms. -/
theorem calc_srid_eq (tid nid : String) (src cfg : Int) (d : Option Int) :
    calc_srid tid nid src cfg d =
      if src = 0 ∧ cfg = 0 then d
      else if src = 0 then some cfg
      else if cfg = 0 then some src
      else if src ≠ cfg then none
      else some cfg := by
  unfold calc_srid
  split
  · simp
  · simp
  · rename_i h1 h2 x
    by_cases hc : cfg = 0
    · exfalso
      cases d with
      | none => exact x hc rfl
      | some v => exact h2 v hc rfl
    · simp [hc]
  · rename_i h1 h2 x
    have hs : ¬ src = 0 := fun hh => h1 hh
    simp [hs]
  · rename_i h1 h2 h3 h4
    have hs : ¬ src = 0 := fun hh => h1 hh
    have hc : ¬ cfg = 0 := fun hh => h2 hh
    simp [hs, hc]

/-- C3 (confirmed): for every `src_srid` and `cfg_srid` in `{0, positive}`
and every `default_srid` in `{none, positive}`, `calc_srid` follows the
truth table of spec §4.C: both zero with a default present gives the
default; both zero with no default gives none; only src zero gives the
configured value; only cfg zero gives the source value; unequal positives
give none; equal positives give the common value.  (The two name arguments
feed only log messages.) -/
theorem calc_srid_truth_table (tid nid : String) (src cfg : Int)
    (d : Option Int) :
    (src = 0 → cfg = 0 → ∀ df, d = some df →
      calc_srid tid nid src cfg d = some df) ∧
    (src = 0 → cfg = 0 → d = none → calc_srid tid nid src cfg d = none) ∧
    (src = 0 → 0 < cfg → calc_srid tid nid src cfg d = some cfg) ∧
    (0 < src → cfg = 0 → calc_srid tid nid src cfg d = some src) ∧
    (0 < src → 0 < cfg → src ≠ cfg → calc_srid tid nid src cfg d = none) ∧
    (0 < src → 0 < cfg → src = cfg → calc_srid tid nid src cfg d = some cfg) := by
  rw [calc_srid_eq]
  refine ⟨?_, ?_, ?_, ?_, ?_, ?_⟩
  · rintro rfl rfl df rfl; simp
  · rintro rfl rfl rfl; simp
  · rintro rfl hcfg
    rw [if_neg (by omega), if_pos rfl]
  · rintro hsrc rfl
    rw [if_neg (by omega), if_neg (by omega), if_pos rfl]
  · intro hsrc hcfg hne
    rw [if_neg (by omega), if_neg (by omega), if_neg (by omega),
      if_pos hne]
  · intro hsrc hcfg heq
    rw [if_neg (by omega), if_neg (by omega), if_neg (by omega),
      if_neg (by simp [heq])]

/-- Witness for `calc_srid_truth_table`: at `(src, cfg, default) =
(0, 0, some 4326)` the default is returned. -/
theorem calc_srid_truth_table_witness :
    calc_srid "public.tbl.geom" "tbl" 0 0 (some 4326) = some 4326 :=
  (calc_srid_truth_table "public.tbl.geom" "tbl" 0 0 (some 4326)).1 rfl rfl
    4326 rfl

/-- Helper for C4: under non-negative input SRIDs and a positive default,
a successful `calc_srid` result is positive. -/
theorem calc_srid_pos (tid nid : String) (src cfg : Int) (d : Option Int)
    (hsrc : 0 ≤ src) (hcfg : 0 ≤ cfg) (hd : ∀ v, d = some v → 0 < v)
    (s : Int) (h : calc_srid tid nid src cfg d = some s) : 0 < s := by
  rw [calc_srid_eq] at h
  by_cases h00 : src = 0 ∧ cfg = 0
  · rw [if_pos h00] at h
    exact hd s h
  · rw [if_neg h00] at h
    by_cases hs : src = 0
    · rw [if_pos hs] at h
      injection h with h
      omega
    · rw [if_neg hs] at h
      by_cases hc : cfg = 0
      · rw [if_pos hc] at h
        injection h with h
        omega
      · rw [if_neg hc] at h
        by_cases hne : src ≠ cfg
        · rw [if_pos hne] at h
          exact absurd h (by simp)
        · rw [if_neg hne] at h
          injection h with h
          omega

/-- C4, as amended (corrected): the claim quantified over all `i32` values
and optional defaults fails (`merge_srid_zero_cex`: a zero `default_srid`
flows through), but whenever the source and config SRIDs are non-negative
and the default, if present, is positive, every `TableInfo` that
`merge_table_info` returns has a strictly positive SRID — a resolved SRID
of 0 is rejected. -/
theorem merge_table_info_srid_pos (default_srid : Option Int)
    (new_id : String) (cfg_inf src_inf inf : TableInfo)
    (hsrc : 0 ≤ src_inf.srid) (hcfg : 0 ≤ cfg_inf.srid)
    (hdef : ∀ v, default_srid = some v → 0 < v)
    (h : merge_table_info default_srid new_id cfg_inf src_inf = some inf) :
    0 < inf.srid := by
  unfold merge_table_info at h
  simp only [bind, Option.bind_eq_some] at h
  obtain ⟨s, hc, h⟩ := h
  have hs := calc_srid_pos _ _ _ _ _ hsrc hcfg hdef s hc
  cases hid : cfg_inf.id_column with
  | none =>
    rw [hid] at h
    simp only [Option.some_bind, Option.bind_eq_some] at h
    obtain ⟨pm, hpm, hinf⟩ := h
    injection hinf with hinf
    subst hinf
    exact hs
  | some idc =>
    rw [hid] at h
    simp only [Option.bind_eq_some, Option.map_eq_some'] at h
    obtain ⟨im, ⟨p, hp, him⟩, pm, hpm, hinf⟩ := h
    injection hinf with hinf
    subst hinf
    exact hs

/-- Witness for `merge_table_info_srid_pos`: merging the default table info
with itself under no default SRID yields a positive SRID. -/
theorem merge_table_info_srid_pos_witness :
    0 < ((merge_table_info none "tbl" dInfo dInfo).getD dInfo).srid := by
  have h : merge_table_info none "tbl" dInfo dInfo =
      some ((merge_table_info none "tbl" dInfo dInfo).getD dInfo) := rfl
  exact merge_table_info_srid_pos none "tbl" dInfo dInfo _ (by decide)
    (by decide) (by intro v hv; cases hv) h

/-- Counterexample to C4 as stated: with `default_srid = Some(0)` and both
SRIDs zero, `merge_table_info` returns a `TableInfo` whose `srid` is 0, not
strictly positive. -/
theorem merge_table_info_srid_zero_cex :
    (merge_table_info (some 0) "tbl" dInfoSrid0 dInfoSrid0).map
      TableInfo.srid = some 0 := rfl

/-- C8, as amended (corrected): when config supplied `bounds`, neither
connection acquisition nor the bounds query is consulted — the result is
the same for every pool, bounds unchanged; when config did not supply
`bounds`, failure of the bounds query execution is swallowed and
`table_to_query` still succeeds with bounds left absent.  (Failure of
connection acquisition, by contrast, is fatal: `table_to_query_conn_fail_cex`.) -/
theorem table_to_query_bounds_nonfatal (id : String) (info : TableInfo)
    (pool : Pool) (p2b : String → Option Bounds) (marginStr : String) :
    (∀ b, info.bounds = some b →
      table_to_query id info pool p2b marginStr =
        .ok (id, PgSqlInfo.new
          (build_query info pool.supports_tile_margin marginStr) false
          info.format_id, info)) ∧
    (info.bounds = none → ∀ conn e, pool.get = .ok conn →
      conn.query_one (boundsQuery info) = .error e →
      table_to_query id info pool p2b marginStr =
        .ok (id, PgSqlInfo.new
          (build_query { info with bounds := none }
            pool.supports_tile_margin marginStr) false
          ({ info with bounds := none }).format_id,
          { info with bounds := none })) := by
  constructor
  · intro b hb
    unfold table_to_query
    rw [hb]
    rfl
  · intro hb conn e hget hq
    unfold table_to_query
    rw [hb, hget]
    simp only [Option.isNone_none, if_true]
    rw [hq]
    rfl

/-- Witness for `table_to_query_bounds_nonfatal`: a failing bounds query on
the default table info is swallowed. -/
theorem table_to_query_bounds_nonfatal_witness :
    table_to_query "tbl" dInfo poolQueryFail (fun _ => none) "0.015625" =
      .ok ("tbl", PgSqlInfo.new
        (build_query { dInfo with bounds := none } false "0.015625") false
        ({ dInfo with bounds := none }).format_id,
        { dInfo with bounds := none }) :=
  (table_to_query_bounds_nonfatal "tbl" dInfo poolQueryFail (fun _ => none)
    "0.015625").2 rfl connQueryFail "query failed" rfl rfl

/-- Counterexample to C8 as stated: with bounds absent from config, a
failure to acquire a connection is fatal — `table_to_query` returns the
error instead of succeeding with absent bounds. -/
theorem table_to_query_conn_fail_cex :
    table_to_query "tbl" dInfo poolGetFail (fun _ => none) "0.015625" =
      .error "connection failed" := rfl

/-- Helper: splitting on commas never yields an empty list of segments. -/
theorem splitComma_ne_nil (l : List Char) : splitComma l ≠ [] := by
  cases l with
  | nil => simp [splitComma]
  | cons c rest =>
    unfold splitComma
    by_cases hc : c = ','
    · simp [hc]
    · simp only [hc, if_false]
      cases splitComma rest <;> simp

/-- Helper: the segment list of a source-ids string is never empty. -/
theorem splitIds_ne_nil (s : String) : splitIds s ≠ [] := by
  unfold splitIds
  simpa using splitComma_ne_nil s.data

/-- Helper: one unfolding step of the dispatcher loop on a non-empty id
list. -/
theorem get_sources_loop_cons (state : List (String × Source))
    (zoom : Option Int) (id : String) (rest : List String)
    (acc : List Source) (fmt : Option DataFormat) :
    get_sources_loop state zoom (id :: rest) acc fmt =
      match sourcesGet state id with
      | none => .error (errorNotFound ("Source " ++ id ++ " does not exist"))
      | some src =>
        if (match zoom with
            | some z => !src.is_valid_zoom z
            | none => false) then
          get_sources_loop state zoom rest acc fmt
        else
          match fmt with
          | some f =>
            if f = src.format then
              get_sources_loop state zoom rest (acc ++ [src]) (some f)
            else
              .error (errorNotFound ("Cannot merge sources with " ++
                f.debugName ++ " with " ++ src.format.debugName))
          | none => get_sources_loop state zoom rest (acc ++ [src])
              (some src.format) := rfl

/-- Helper: the dispatcher loop processes an appended id list in two runs,
threading the accumulated sources and the expected format. -/
theorem get_sources_loop_append (state : List (String × Source))
    (zoom : Option Int) (a b : List String) :
    ∀ (acc : List Source) (fmt : Option DataFormat),
    get_sources_loop state zoom (a ++ b) acc fmt =
      match get_sources_loop state zoom a acc fmt with
      | .error e => .error e
      | .ok (acc', fmt') => get_sources_loop state zoom b acc' fmt' := by
  induction a with
  | nil => intro acc fmt; rfl
  | cons id rest ih =>
    intro acc fmt
    rw [List.cons_append, get_sources_loop_cons, get_sources_loop_cons]
    cases sourcesGet state id with
    | none => rfl
    | some s =>
      dsimp only
      cases hz : (match zoom with
          | some z => !s.is_valid_zoom z
          | none => false) with
      | true =>
        simp only [if_true]
        exact ih acc fmt
      | false =>
        simp only [Bool.false_eq_true, if_false]
        cases fmt with
        | none => exact ih (acc ++ [s]) (some s.format)
        | some f =>
          dsimp only
          by_cases hf : f = s.format
          · rw [if_pos hf, if_pos hf]
            exact ih (acc ++ [s]) (some f)
          · rw [if_neg hf, if_neg hf]

/-- Helper: when every listed id resolves, the dispatcher loop keeps
exactly the zoom-valid sources, in order, appended to the accumulator; the
format state stays untouched when everything is filtered out and otherwise
settles on the shared format of the kept sources. -/
theorem get_sources_loop_filter (state : List (String × Source)) (z : Int)
    (f : DataFormat) :
    ∀ (ids : List String) (srcs : List Source),
    lookupAll state ids = some srcs →
    (∀ s ∈ srcs.filter (fun s => s.is_valid_zoom z), s.format = f) →
    ∀ (acc : List Source) (fmt0 : Option DataFormat),
    (fmt0 = none ∨ fmt0 = some f) →
    get_sources_loop state (some z) ids acc fmt0 =
      .ok (acc ++ srcs.filter (fun s => s.is_valid_zoom z),
        if (srcs.filter (fun s => s.is_valid_zoom z)).isEmpty then fmt0
        else some f) := by
  intro ids
  induction ids with
  | nil =>
    intro srcs hl hf acc fmt0 h0
    injection hl with hl
    subst hl
    simp [get_sources_loop]
  | cons id rest ih =>
    intro srcs hl hf acc fmt0 h0
    unfold lookupAll at hl
    cases hs : sourcesGet state id with
    | none => rw [hs] at hl; exact absurd hl (by simp)
    | some s =>
      rw [hs] at hl
      simp only [Option.map_eq_some'] at hl
      obtain ⟨srcs', hl', rfl⟩ := hl
      rw [get_sources_loop_cons, hs]
      dsimp only
      by_cases hz : s.is_valid_zoom z
      · have hkept : (s :: srcs').filter (fun s => s.is_valid_zoom z) =
            s :: srcs'.filter (fun s => s.is_valid_zoom z) := by
          simp [List.filter_cons, hz]
        have hsf : s.format = f := by
          apply hf
          rw [hkept]
          exact List.mem_cons_self _ _
        rw [hkept]
        have hf' : ∀ t ∈ srcs'.filter (fun s => s.is_valid_zoom z),
            t.format = f := by
          intro t ht
          apply hf
          rw [hkept]
          exact List.mem_cons_of_mem _ ht
        rw [hz]
        simp only [Bool.not_true, Bool.false_eq_true, if_false]
        cases h0 with
        | inl h0 =>
          subst h0
          have := ih srcs' hl' hf' (acc ++ [s]) (some s.format)
            (Or.inr (by rw [hsf]))
          rw [this]
          simp [List.append_assoc, hsf]
        | inr h0 =>
          subst h0
          simp only [List.isEmpty_cons, Bool.false_eq_true, if_false]
          rw [if_pos hsf.symm]
          have := ih srcs' hl' hf' (acc ++ [s]) (some f) (Or.inr rfl)
          rw [this]
          simp [List.append_assoc]
      · have hkept : (s :: srcs').filter (fun s => s.is_valid_zoom z) =
            srcs'.filter (fun s => s.is_valid_zoom z) := by
          simp [List.filter_cons, hz]
        rw [hkept]
        rw [Bool.not_eq_true] at hz
        rw [hz]
        simp only [Bool.not_false, if_true]
        exact ih srcs' hl' (hkept ▸ hf) acc fmt0 h0

/-- Helper: with no zoom filter, a successful dispatcher loop run returns
one source per listed id on top of the accumulator. -/
theorem get_sources_loop_none_length (state : List (String × Source)) :
    ∀ (ids : List String) (acc : List Source) (fmt : Option DataFormat)
      (res : List Source) (rf : Option DataFormat),
    get_sources_loop state none ids acc fmt = .ok (res, rf) →
    res.length = acc.length + ids.length := by
  intro ids
  induction ids with
  | nil =>
    intro acc fmt res rf h
    injection h with h
    injection h with h1 h2
    subst h1
    simp
  | cons id rest ih =>
    intro acc fmt res rf h
    rw [get_sources_loop_cons] at h
    cases hs : sourcesGet state id with
    | none => rw [hs] at h; exact absurd h (by simp)
    | some s =>
      rw [hs] at h
      dsimp only at h
      rw [if_neg (by simp)] at h
      cases fmt with
      | none =>
        have := ih (acc ++ [s]) (some s.format) res rf h
        simp at this
        simp [this]
        omega
      | some f =>
        dsimp only at h
        by_cases hf : f = s.format
        · rw [if_pos hf] at h
          have := ih (acc ++ [s]) (some f) res rf h
          simp at this
          simp [this]
          omega
        · rw [if_neg hf] at h
          exact absurd h (by simp)

/-- Helper: a successful full resolution yields one source per id. -/
theorem lookupAll_length (state : List (String × Source)) :
    ∀ (l : List String) (srcs : List Source),
    lookupAll state l = some srcs → srcs.length = l.length := by
  intro l
  induction l with
  | nil =>
    intro srcs h
    injection h with h
    subst h
    rfl
  | cons id rest ih =>
    intro srcs h
    unfold lookupAll at h
    cases hs : sourcesGet state id with
    | none => rw [hs] at h; exact absurd h (by simp)
    | some s =>
      rw [hs] at h
      simp only [Option.map_eq_some'] at h
      obtain ⟨srcs', h', rfl⟩ := h
      simp [ih srcs' h']

/-- C5 (confirmed): for a tile request whose ids all resolve, all pass the
zoom check and share one format, and whose per-source tile fetches all
succeed, the handler's body is the byte-wise concatenation of the
per-source results in id order, served as 204 with the format's
content type when empty and as 200 with that content type otherwise. -/
theorem get_tile_concat (state : List (String × Source)) (ids : String)
    (z x y : Int) (q : List (String × String)) (srcs : List Source)
    (f : DataFormat) (tiles : List (List UInt8))
    (hl : lookupAll state (splitIds ids) = some srcs)
    (hz : ∀ s ∈ srcs, s.is_valid_zoom z = true)
    (hf : ∀ s ∈ srcs, s.format = f)
    (ht : try_join_all (srcs.map (fun s => s.get_tile ⟨z, x, y⟩ q)) =
      .ok tiles) :
    get_tile_handler state ids z x y q =
      if tiles.flatten.length = 0 then
        .ok { status := 204, contentType := some f.content_type, body := [] }
      else
        .ok { status := 200, contentType := some f.content_type,
              body := tiles.flatten } := by
  have hfilter : srcs.filter (fun s => s.is_valid_zoom z) = srcs :=
    List.filter_eq_self.mpr hz
  have hne : srcs ≠ [] := by
    intro hempty
    have hlen := lookupAll_length state (splitIds ids) srcs hl
    rw [hempty] at hlen
    exact splitIds_ne_nil ids (List.eq_nil_of_length_eq_zero hlen.symm)
  have hloop := get_sources_loop_filter state z f (splitIds ids) srcs hl
    (by rw [hfilter]; exact hf) [] none (Or.inl rfl)
  rw [hfilter] at hloop
  have hne' : srcs.isEmpty = false := by
    cases srcs with
    | nil => exact absurd rfl hne
    | cons t ts => rfl
  rw [hne'] at hloop
  simp only [Bool.false_eq_true, if_false, List.nil_append] at hloop
  unfold get_tile_handler get_sources
  rw [hloop]
  dsimp only
  rw [ht]

/-- Witness for `get_tile_concat`: two MVT sources produce the
concatenation of their bytes with a 200 and the MVT content type. -/
theorem get_tile_concat_witness :
    get_tile_handler stateAB "a,b" 3 2 1 [] =
      .ok { status := 200, contentType := some DataFormat.mvt.content_type,
            body := [1, 2, 3] } := by
  rw [get_tile_concat stateAB "a,b" 3 2 1 [] [srcA, srcB] .mvt [[1, 2], [3]]
    rfl (by decide) (by decide) rfl]
  rfl

/-- C7 (confirmed): when every listed id resolves, a source whose
`is_valid_zoom(z)` is false is silently skipped — the dispatcher returns
exactly the zoom-valid sources (in particular a skipped source neither
appears nor causes an error, not even a format check) — and when every
listed source is skipped the dispatcher fails with 404
`No valid sources found`. -/
theorem get_sources_zoom_filter (state : List (String × Source))
    (ids : String) (z : Int) (srcs : List Source)
    (hl : lookupAll state (splitIds ids) = some srcs) :
    (srcs.filter (fun s => s.is_valid_zoom z) = [] →
      get_sources state ids (some z) =
        .error (errorNotFound "No valid sources found")) ∧
    (∀ f, (∀ s ∈ srcs.filter (fun s => s.is_valid_zoom z), s.format = f) →
      srcs.filter (fun s => s.is_valid_zoom z) ≠ [] →
      get_sources state ids (some z) =
        .ok (srcs.filter (fun s => s.is_valid_zoom z), f)) := by
  constructor
  · intro hempty
    have hloop := get_sources_loop_filter state z .mvt (splitIds ids) srcs
      hl (by rw [hempty]; intro s hs; cases hs) [] none (Or.inl rfl)
    rw [hempty] at hloop
    simp only [List.isEmpty_nil, if_true, List.append_nil,
      List.nil_append] at hloop
    unfold get_sources
    rw [hloop]
  · intro f hf hne
    have hloop := get_sources_loop_filter state z f (splitIds ids) srcs hl
      hf [] none (Or.inl rfl)
    have hne' : (srcs.filter (fun s => s.is_valid_zoom z)).isEmpty =
        false := by
      cases hc : srcs.filter (fun s => s.is_valid_zoom z) with
      | nil => exact absurd hc hne
      | cons t ts => rfl
    rw [hne'] at hloop
    simp only [Bool.false_eq_true, if_false, List.nil_append] at hloop
    unfold get_sources
    rw [hloop]

/-- Witness for `get_sources_zoom_filter`: one source rejecting every zoom
yields the 404. -/
theorem get_sources_zoom_filter_witness :
    get_sources stateNoZoom "a" (some 5) =
      .error (errorNotFound "No valid sources found") :=
  (get_sources_zoom_filter stateNoZoom "a" 5 [srcNoZoom] rfl).1 rfl

/-- C9 (confirmed): `merge_tilejson` is undefined (panics, modelled as
`none`) on an empty source list, and the precondition holds at its single
call site: whenever `get_sources` succeeds with no zoom filter — as in the
TileJSON handler `git_source_info` — the returned source list is non-empty
and `merge_tilejson` returns a value. -/
theorem merge_tilejson_call_safe (url : String) :
    merge_tilejson [] url = none ∧
    (∀ (state : List (String × Source)) (ids : String) (srcs : List Source)
      (f : DataFormat), get_sources state ids none = .ok (srcs, f) →
      srcs ≠ [] ∧ ∃ tj, merge_tilejson srcs url = some tj) := by
  constructor
  · rfl
  · intro state ids srcs f h
    unfold get_sources at h
    cases hres : get_sources_loop state none (splitIds ids) [] none with
    | error e => rw [hres] at h; exact absurd h (by simp)
    | ok p =>
      obtain ⟨res, rf⟩ := p
      rw [hres] at h
      cases rf with
      | none => exact absurd h (by simp)
      | some f' =>
        dsimp only at h
        injection h with h
        injection h with h1 h2
        subst h1
        have hlen := get_sources_loop_none_length state (splitIds ids) []
          none res (some f') hres
        simp only [List.length_nil, Nat.zero_add] at hlen
        have hne : res ≠ [] := by
          intro hempty
          rw [hempty] at hlen
          exact splitIds_ne_nil ids
            (List.eq_nil_of_length_eq_zero hlen.symm)
        refine ⟨hne, ?_⟩
        cases res with
        | nil => exact absurd rfl hne
        | cons t ts => exact ⟨_, rfl⟩

/-- Witness for `merge_tilejson_call_safe`: a successful single-source
resolution yields a non-empty list and a merged TileJSON. -/
theorem merge_tilejson_call_safe_witness :
    [srcA] ≠ [] ∧ ∃ tj, merge_tilejson [srcA] "url" = some tj :=
  (merge_tilejson_call_safe "url").2 stateAB "a" [srcA] .mvt rfl

/-- C10, as amended (corrected): the existence lookup of each segment
happens before any zoom filtering, so — provided the segments before the
first absent one process without error (they exist and, once zoom
filtering is applied, share one format) — a request containing a segment
absent from the map (including the empty segment a leading, trailing or
doubled comma produces) fails with 404 `Source <id> does not exist`,
whatever the zoom.  As literally stated the claim fails: when two earlier
sources already disagree on format, that format error fires first
(`get_sources_missing_segment_cex`). -/
theorem get_sources_missing_segment (state : List (String × Source))
    (ids : String) (zoom : Option Int) (pre post : List String)
    (bad : String) (acc' : List Source) (fmt' : Option DataFormat)
    (hsplit : splitIds ids = pre ++ bad :: post)
    (hbad : sourcesGet state bad = none)
    (hpre : get_sources_loop state zoom pre [] none = .ok (acc', fmt')) :
    get_sources state ids zoom =
      .error (errorNotFound ("Source " ++ bad ++ " does not exist")) := by
  unfold get_sources
  rw [hsplit, get_sources_loop_append state zoom pre (bad :: post) [] none,
    hpre]
  dsimp only
  rw [get_sources_loop_cons, hbad]

/-- Witness for `get_sources_missing_segment`: a doubled comma produces an
empty segment, which does not exist in the map, so the whole request fails
with the does-not-exist error even though `a` and `b` are valid. -/
theorem get_sources_missing_segment_witness :
    get_sources stateAB "a,,b" (some 3) =
      .error (errorNotFound "Source  does not exist") := by
  have h := get_sources_missing_segment stateAB "a,,b" (some 3) ["a"]
    ["b"] "" [srcA] (some .mvt) rfl rfl rfl
  simpa using h

/-- Counterexample to C10 as stated: `a,b,missing` contains the absent
segment `missing`, yet the request fails with the format-mismatch message
of the two earlier (existing) sources, not with
`Source missing does not exist`. -/
theorem get_sources_missing_segment_cex :
    sourcesGet stateMix "missing" = none ∧
    "missing" ∈ splitIds "a,b,missing" ∧
    get_sources stateMix "a,b,missing" (some 3) =
      .error (errorNotFound "Cannot merge sources with Png with Mvt") :=
  ⟨rfl, by decide, rfl⟩

/-- Helper: the bounds union is associative. -/
theorem boundsUnion_assoc (a b c : Bounds) : a + b + c = a + (b + c) := by
  show boundsUnion (boundsUnion a b) c = boundsUnion a (boundsUnion b c)
  unfold boundsUnion
  simp [min_assoc, max_assoc]

/-- Helper: an absent right operand is the identity of `ocomb`. -/
theorem ocomb_none_right {α : Type} (op : α → α → α) (x : Option α) :
    ocomb op x none = x := by
  cases x <;> rfl

/-- Helper: an absent left operand is the identity of `ocomb`. -/
theorem ocomb_none_left {α : Type} (op : α → α → α) (x : Option α) :
    ocomb op none x = x := by
  cases x <;> rfl

/-- Helper: an associative operation moves through a left fold. -/
theorem foldl_op_shift {α : Type} (op : α → α → α)
    (hassoc : ∀ a b c, op (op a b) c = op a (op b c)) :
    ∀ (xs : List α) (a b : α), xs.foldl op (op a b) = op a (xs.foldl op b) := by
  intro xs
  induction xs with
  | nil => intro a b; rfl
  | cons c cs ih =>
    intro a b
    show cs.foldl op (op (op a b) c) = op a (cs.foldl op (op b c))
    rw [hassoc, ih]

/-- Helper: combining a present value into a list combination prepends it. -/
theorem ocomb_some_listComb {α : Type} (op : α → α → α)
    (hassoc : ∀ a b c, op (op a b) c = op a (op b c)) (v : α)
    (xs : List α) :
    ocomb op (some v) (listComb op xs) = listComb op (v :: xs) := by
  cases xs with
  | nil => rfl
  | cons c cs =>
    show some (op v (cs.foldl op c)) = some (cs.foldl op (op v c))
    rw [foldl_op_shift op hassoc]

/-- Helper: combining an optional value into a list combination prepends
it when present. -/
theorem ocomb_listComb {α : Type} (op : α → α → α)
    (hassoc : ∀ a b c, op (op a b) c = op a (op b c)) (t0 : Option α)
    (xs : List α) :
    ocomb op t0 (listComb op xs) =
      listComb op (match t0 with | some v => v :: xs | none => xs) := by
  cases t0 with
  | none => exact ocomb_none_left op _
  | some v => exact ocomb_some_listComb op hassoc v xs

/-- Helper: folding `ocomb op` over present values equals combining the
accumulator with the whole-list combination. -/
theorem foldl_ocomb_eq_listComb {α : Type} (op : α → α → α)
    (hassoc : ∀ a b c, op (op a b) c = op a (op b c)) :
    ∀ (xs : List α) (acc : Option α),
    xs.foldl (fun a v => ocomb op a (some v)) acc =
      ocomb op acc (listComb op xs) := by
  intro xs
  induction xs with
  | nil => intro acc; exact (ocomb_none_right op acc).symm
  | cons v vs ih =>
    intro acc
    show vs.foldl _ (ocomb op acc (some v)) = _
    rw [ih, ← ocomb_some_listComb op hassoc v vs]
    cases acc with
    | none => cases listComb op vs <;> rfl
    | some a =>
      cases hX : listComb op vs with
      | none => rfl
      | some w =>
        show some (op (op a v) w) = some (op a (op v w))
        rw [hassoc]

/-- Helper: a fold of `ocomb` over optional projections ignores the absent
ones. -/
theorem foldl_ocomb_filterMap {α : Type} (op : α → α → α) :
    ∀ (l : List TileJSON) (g : TileJSON → Option α) (acc : Option α),
    l.foldl (fun a tj => ocomb op a (g tj)) acc =
      (l.filterMap g).foldl (fun a v => ocomb op a (some v)) acc := by
  intro l
  induction l with
  | nil => intro g acc; rfl
  | cons tj r ih =>
    intro g acc
    show r.foldl _ (ocomb op acc (g tj)) = ((tj :: r).filterMap g).foldl _ acc
    cases hg : g tj with
    | none =>
      rw [List.filterMap_cons_none hg, ocomb_none_right]
      exact ih g acc
    | some v =>
      rw [List.filterMap_cons_some hg]
      exact ih g (ocomb op acc (some v))

/-- Helper: the library minimum is the `min`-combination of the list. -/
theorem min?_eq_listComb (l : List Nat) : l.min? = listComb min l := by
  cases l <;> rfl

/-- Helper: the library maximum is the `max`-combination of the list. -/
theorem max?_eq_listComb (l : List Nat) : l.max? = listComb max l := by
  cases l <;> rfl

/-- Helper: the first `reduce` block is an `ocomb min` on minzoom. -/
theorem mergeMinzoom_eq (a b : TileJSON) :
    mergeMinzoom a b = { a with minzoom := ocomb min a.minzoom b.minzoom } := by
  unfold mergeMinzoom
  rcases hb : b.minzoom with _ | m
  · simp [ocomb]
  · rcases ha : a.minzoom with _ | am
    · simp [ocomb, hb]
    · simp only [ocomb]
      split
      · rename_i hlt
        have hmin : min am m = m := by omega
        rw [hmin]
      · rename_i hlt
        have hmin : min am m = am := by omega
        rw [hmin, ← ha]

/-- Helper: the second `reduce` block is an `ocomb max` on maxzoom. -/
theorem mergeMaxzoom_eq (a b : TileJSON) :
    mergeMaxzoom a b = { a with maxzoom := ocomb max a.maxzoom b.maxzoom } := by
  unfold mergeMaxzoom
  rcases hb : b.maxzoom with _ | m
  · simp [ocomb]
  · rcases ha : a.maxzoom with _ | am
    · simp [ocomb, hb]
    · simp only [ocomb]
      split
      · rename_i hlt
        have hmax : max am m = m := by omega
        rw [hmax]
      · rename_i hlt
        have hmax : max am m = am := by omega
        rw [hmax, ← ha]

/-- Helper: the third `reduce` block is an `ocomb (+)` on bounds. -/
theorem mergeBounds_eq (a b : TileJSON) :
    mergeBounds a b =
      { a with bounds := ocomb (· + ·) a.bounds b.bounds } := by
  unfold mergeBounds
  rcases hb : b.bounds with _ | w
  · simp [ocomb]
  · rcases ha : a.bounds with _ | ab'
    · simp [ocomb, hb]
    · simp [ocomb]

/-- Helper: one `reduce` step characterized field by field. -/
theorem mergePair_eq (a b : TileJSON) :
    mergePair a b =
      { a with minzoom := ocomb min a.minzoom b.minzoom,
               maxzoom := ocomb max a.maxzoom b.maxzoom,
               bounds := ocomb (· + ·) a.bounds b.bounds } := by
  unfold mergePair
  rw [mergeMinzoom_eq, mergeMaxzoom_eq, mergeBounds_eq]

/-- Helper: the whole `reduce` fold characterized field by field. -/
theorem foldl_mergePair (rest : List TileJSON) :
    ∀ (t : TileJSON),
    rest.foldl mergePair t =
      { t with
        minzoom := rest.foldl (fun acc tj => ocomb min acc tj.minzoom)
          t.minzoom,
        maxzoom := rest.foldl (fun acc tj => ocomb max acc tj.maxzoom)
          t.maxzoom,
        bounds := rest.foldl (fun acc tj => ocomb (· + ·) acc tj.bounds)
          t.bounds } := by
  induction rest with
  | nil => intro t; rfl
  | cons tj r ih =>
    intro t
    show r.foldl mergePair (mergePair t tj) = _
    rw [ih (mergePair t tj), mergePair_eq]
    rfl

/-- Helper: the minzoom of the fold is the minimum of the present
minzooms. -/
theorem foldl_mergePair_minzoom (t : TileJSON) (l : List TileJSON) :
    (l.foldl mergePair t).minzoom =
      ((t :: l).filterMap TileJSON.minzoom).min? := by
  rw [foldl_mergePair]
  show l.foldl (fun acc tj => ocomb min acc tj.minzoom) t.minzoom = _
  rw [foldl_ocomb_filterMap, foldl_ocomb_eq_listComb min min_assoc,
    ocomb_listComb min min_assoc, List.filterMap_cons, min?_eq_listComb]
  cases t.minzoom <;> rfl

/-- Helper: the maxzoom of the fold is the maximum of the present
maxzooms. -/
theorem foldl_mergePair_maxzoom (t : TileJSON) (l : List TileJSON) :
    (l.foldl mergePair t).maxzoom =
      ((t :: l).filterMap TileJSON.maxzoom).max? := by
  rw [foldl_mergePair]
  show l.foldl (fun acc tj => ocomb max acc tj.maxzoom) t.maxzoom = _
  rw [foldl_ocomb_filterMap, foldl_ocomb_eq_listComb max max_assoc,
    ocomb_listComb max max_assoc, List.filterMap_cons, max?_eq_listComb]
  cases t.maxzoom <;> rfl

/-- Helper: the bounds of the fold is the widening union of the present
bounds. -/
theorem foldl_mergePair_bounds (t : TileJSON) (l : List TileJSON) :
    (l.foldl mergePair t).bounds =
      listComb (· + ·) ((t :: l).filterMap TileJSON.bounds) := by
  rw [foldl_mergePair]
  show l.foldl (fun acc tj => ocomb (· + ·) acc tj.bounds) t.bounds = _
  rw [foldl_ocomb_filterMap, foldl_ocomb_eq_listComb _ boundsUnion_assoc,
    ocomb_listComb _ boundsUnion_assoc, List.filterMap_cons]
  cases t.bounds <;> rfl

/-- C6 (confirmed): for every non-empty source list, `merge_tilejson`
returns a TileJSON whose minzoom is the minimum of the present minzooms
(absent when none are present), whose maxzoom is the maximum of the
present maxzooms, whose bounds is the element-wise widening union of the
present bounds, whose remaining fields (name, description, attribution,
scheme, vector layers) come from the first source, and whose tiles list is
the first source's with the generated tiles URL appended (in particular it
contains that URL). -/
theorem merge_tilejson_spec (s : Source) (ss : List Source) (url : String) :
    ∃ m, merge_tilejson (s :: ss) url = some m ∧
      m.minzoom = (((s :: ss).map (fun x => x.tilejson)).filterMap
        TileJSON.minzoom).min? ∧
      m.maxzoom = (((s :: ss).map (fun x => x.tilejson)).filterMap
        TileJSON.maxzoom).max? ∧
      m.bounds = listComb (· + ·) (((s :: ss).map (fun x => x.tilejson))
        |>.filterMap TileJSON.bounds) ∧
      m.name = s.tilejson.name ∧
      m.description = s.tilejson.description ∧
      m.attribution = s.tilejson.attribution ∧
      m.scheme = s.tilejson.scheme ∧
      m.vector_layers = s.tilejson.vector_layers ∧
      m.tiles = s.tilejson.tiles ++ [url] ∧
      url ∈ m.tiles := by
  refine ⟨_, rfl, ?_, ?_, ?_, ?_, ?_, ?_, ?_, ?_, ?_, ?_⟩
  · show ((ss.map (fun x => x.tilejson)).foldl mergePair s.tilejson).minzoom = _
    rw [foldl_mergePair_minzoom, List.map_cons]
  · show ((ss.map (fun x => x.tilejson)).foldl mergePair s.tilejson).maxzoom = _
    rw [foldl_mergePair_maxzoom, List.map_cons]
  · show ((ss.map (fun x => x.tilejson)).foldl mergePair s.tilejson).bounds = _
    rw [foldl_mergePair_bounds, List.map_cons]
  · show ((ss.map (fun x => x.tilejson)).foldl mergePair s.tilejson).name = _
    rw [foldl_mergePair]
  · show ((ss.map (fun x => x.tilejson)).foldl mergePair
      s.tilejson).description = _
    rw [foldl_mergePair]
  · show ((ss.map (fun x => x.tilejson)).foldl mergePair
      s.tilejson).attribution = _
    rw [foldl_mergePair]
  · show ((ss.map (fun x => x.tilejson)).foldl mergePair s.tilejson).scheme = _
    rw [foldl_mergePair]
  · show ((ss.map (fun x => x.tilejson)).foldl mergePair
      s.tilejson).vector_layers = _
    rw [foldl_mergePair]
  · show ((ss.map (fun x => x.tilejson)).foldl mergePair s.tilejson).tiles
      ++ [url] = _
    rw [foldl_mergePair]
  · show url ∈ ((ss.map (fun x => x.tilejson)).foldl mergePair
      s.tilejson).tiles ++ [url]
    exact List.mem_append_right _ (List.mem_singleton.mpr rfl)

/-- Helper: rendering distributes over segment-list append. -/
theorem renderSegs_append (a b : List Seg) :
    renderSegs (a ++ b) = renderSegs a ++ renderSegs b := by
  induction a with
  | nil => rfl
  | cons s rest ih => simp [renderSegs, ih, List.append_assoc]

/-- Helper: `escape_with_alias` renders its segment form. -/
theorem ewa_data (pm : List (String × String)) (f : String) :
    (escape_with_alias pm f).data = renderSegs (ewaSegs pm f) := by
  simp only [escape_with_alias, ewaSegs]
  split <;> simp [renderSegs, renderSeg, String.data_append]

/-- Helper: the properties fragment renders its segment form. -/
theorem props_data (pm : List (String × String)) :
    ∀ l, (propsFrag pm l).data = renderSegs (propsSegs pm l) := by
  intro l
  induction l with
  | nil => rfl
  | cons kv rest ih =>
    obtain ⟨k, v⟩ := kv
    simp [propsFrag, propsSegs, renderSegs_append, String.data_append, ih,
      ewa_data]

/-- Helper: the bbox search renders its segment form. -/
theorem bbox_data (b : Nat) (sm : Bool) (m : String) :
    (bbox_search b sm m).data = renderSegs (bboxSegs b sm m) := by
  unfold bbox_search bboxSegs
  by_cases hb : b = 0
  · simp [hb, renderSegs, renderSeg]
  · cases sm <;>
      simp [hb, renderSegs, renderSeg, String.data_append]

/-- Helper: the characters of the tile query are exactly the rendering of
its segment decomposition. -/
theorem build_query_data_eq (info : TableInfo) (sm : Bool) (m : String) :
    (build_query info sm m).data = renderSegs (querySegs info sm m) := by
  have hg : (", 'geom'" : String) = ", " ++ escape_literal "geom" := by
    decide
  unfold build_query querySegs
  cases hid : info.id_column with
  | none =>
    simp only [hg, String.data_append, ewa_data, props_data, bbox_data,
      List.append_eq, renderSegs_append, renderSegs, renderSeg,
      List.append_assoc, List.nil_append, List.append_nil]
  | some idc =>
    simp only [hg, String.data_append, ewa_data, props_data, bbox_data,
      List.append_eq, renderSegs_append, renderSegs, renderSeg,
      List.append_assoc, List.nil_append, List.append_nil]



theorem params_cons_ne (c : Char) (l : List Char) (hc : c ≠ '$') :
    params (c :: l) = params l := by
  cases l with
  | nil => simp [params, hc]
  | cons d rest => simp [params, hc]

theorem params_cons_dollar (c : Char) (l : List Char) :
    params ('$' :: c :: l) = c :: params (c :: l) := by
  simp [params]

theorem params_nil_of (l : List Char) (h : '$' ∉ l) : params l = [] := by
  induction l with
  | nil => rfl
  | cons c rest ih =>
    rw [params_cons_ne c rest (fun hh => h (hh ▸ List.mem_cons_self c rest))]
    exact ih (fun hh => h (List.mem_cons_of_mem c hh))

theorem params_append_left (e : List Char) :
    ∀ b, e.getLast? ≠ some '$' → params (e ++ b) = params e ++ params b := by
  induction e with
  | nil => intro b _; rfl
  | cons c e' ih =>
    intro b he
    by_cases hc : c = '$'
    · subst hc
      cases e' with
      | nil => simp at he
      | cons c2 e'' =>
        rw [List.cons_append, List.cons_append, params_cons_dollar,
          params_cons_dollar, ← List.cons_append]
        rw [ih b (by simpa [List.getLast?] using he)]
        rfl
    · rw [List.cons_append, params_cons_ne c _ hc, params_cons_ne c _ hc]
      exact ih b (by
        cases e' with
        | nil => simp
        | cons c2 e'' => simpa [List.getLast?] using he)

theorem digitChar_safe : ∀ k, k < 10 → Nat.digitChar k ≠ '$' ∧
    Nat.digitChar k ≠ '"' ∧ Nat.digitChar k ≠ '\'' ∧
    badSqlChar (Nat.digitChar k) = false := by decide

theorem mem_toDigitsCore : ∀ (f n : Nat) (ds : List Char) (c : Char),
    c ∈ Nat.toDigitsCore 10 f n ds →
    c ∈ ds ∨ ∃ k, k < 10 ∧ c = Nat.digitChar k := by
  intro f
  induction f with
  | zero => intro n ds c h; exact Or.inl h
  | succ f ih =>
    intro n ds c h
    simp only [Nat.toDigitsCore] at h
    split at h
    · rcases List.mem_cons.mp h with h | h
      · exact Or.inr ⟨n % 10, Nat.mod_lt _ (by omega), h⟩
      · exact Or.inl h
    · rcases ih _ _ _ h with h | h
      · rcases List.mem_cons.mp h with h | h
        · exact Or.inr ⟨n % 10, Nat.mod_lt _ (by omega), h⟩
        · exact Or.inl h
      · exact Or.inr h

theorem natDisplay_data (n : Nat) :
    (natDisplay n).data = Nat.toDigitsCore 10 (n + 1) n [] := rfl

theorem natDisplay_safe (n : Nat) : ∀ c ∈ (natDisplay n).data,
    c ≠ '$' ∧ c ≠ '"' ∧ c ≠ '\'' ∧ badSqlChar c = false := by
  intro c hc
  rw [natDisplay_data] at hc
  rcases mem_toDigitsCore _ _ _ _ hc with h | ⟨k, hk, rfl⟩
  · cases h
  · exact digitChar_safe k hk

theorem intDisplay_safe (i : Int) : ∀ c ∈ (intDisplay i).data,
    c ≠ '$' ∧ c ≠ '"' ∧ c ≠ '\'' ∧ badSqlChar c = false := by
  intro c hc
  cases i with
  | ofNat n => exact natDisplay_safe n c hc
  | negSucc n =>
    have hd : (intDisplay (Int.negSucc n)).data =
        '-' :: (natDisplay (n + 1)).data := rfl
    rw [hd] at hc
    rcases List.mem_cons.mp hc with rfl | hc
    · refine ⟨by decide, by decide, by decide, by decide⟩
    · exact natDisplay_safe (n + 1) c hc

theorem boolDisplay_safe (b : Bool) : ∀ c ∈ (boolDisplay b).data,
    c ≠ '$' ∧ c ≠ '"' ∧ c ≠ '\'' ∧ badSqlChar c = false := by
  cases b <;> decide

theorem marginChars_safe (s : String) (hm : marginChars s = true) :
    ∀ c ∈ s.data, c ≠ '$' ∧ c ≠ '"' ∧ c ≠ '\'' ∧ badSqlChar c = false := by
  intro c hc
  have h := (List.all_eq_true.mp hm) c hc
  simp only [Bool.or_eq_true, decide_eq_true_eq] at h
  rcases h with (h | h) | h
  · refine ⟨?_, ?_, ?_, ?_⟩
    · rintro rfl; exact absurd h (by decide)
    · rintro rfl; exact absurd h (by decide)
    · rintro rfl; exact absurd h (by decide)
    · cases hbc : badSqlChar c
      · rfl
      · exfalso
        simp only [badSqlChar, Bool.or_eq_true, decide_eq_true_eq] at hbc
        rcases hbc with ((rfl | rfl) | rfl) | rfl <;>
          exact absurd h (by decide)
  · subst h; refine ⟨by decide, by decide, by decide, by decide⟩
  · subst h; refine ⟨by decide, by decide, by decide, by decide⟩

theorem mem_escIdentBody : ∀ (l : List Char) (c : Char),
    c ∈ escIdentBody l → c ∈ l := by
  intro l
  induction l with
  | nil => intro c h; cases h
  | cons d rest ih =>
    intro c h
    unfold escIdentBody at h
    split at h
    · rcases List.mem_cons.mp h with rfl | h
      · exact List.mem_cons_self _ _
      · rcases List.mem_cons.mp h with rfl | h
        · exact List.mem_cons_self _ _
        · exact List.mem_cons_of_mem _ (ih c h)
    · rcases List.mem_cons.mp h with rfl | h
      · exact List.mem_cons_self _ _
      · exact List.mem_cons_of_mem _ (ih c h)

theorem mem_escLitBody : ∀ (l : List Char) (c : Char),
    c ∈ escLitBody l → c ∈ l := by
  intro l
  induction l with
  | nil => intro c h; cases h
  | cons d rest ih =>
    intro c h
    unfold escLitBody at h
    split at h
    · rcases List.mem_cons.mp h with rfl | h
      · exact List.mem_cons_self _ _
      · rcases List.mem_cons.mp h with rfl | h
        · exact List.mem_cons_self _ _
        · exact List.mem_cons_of_mem _ (ih c h)
    · rcases List.mem_cons.mp h with rfl | h
      · exact List.mem_cons_self _ _
      · exact List.mem_cons_of_mem _ (ih c h)

theorem escape_identifier_data (s : String) :
    (escape_identifier s).data = '"' :: (escIdentBody s.data ++ ['"']) := by
  simp [escape_identifier, String.data_append]

theorem escape_literal_data (s : String) :
    (escape_literal s).data =
      (if s.data.contains '\\' then [' ', 'E'] else []) ++
        ('\'' :: (escLitBody s.data ++ ['\''])) := by
  simp only [escape_literal, String.data_append]
  split <;> simp [String.data_append]

theorem mem_escape_identifier (s : String) (c : Char)
    (h : c ∈ (escape_identifier s).data) : c ∈ s.data ∨ c = '"' := by
  rw [escape_identifier_data] at h
  rcases List.mem_cons.mp h with rfl | h
  · exact Or.inr rfl
  · rcases List.mem_append.mp h with h | h
    · exact Or.inl (mem_escIdentBody _ _ h)
    · rcases List.mem_singleton.mp h with rfl
      exact Or.inr rfl

theorem mem_escape_literal (s : String) (c : Char)
    (h : c ∈ (escape_literal s).data) :
    c ∈ s.data ∨ c = '\'' ∨ c = ' ' ∨ c = 'E' := by
  rw [escape_literal_data] at h
  rcases List.mem_append.mp h with h | h
  · split at h
    · rcases List.mem_cons.mp h with rfl | h
      · exact Or.inr (Or.inr (Or.inl rfl))
      · rcases List.mem_cons.mp h with rfl | h
        · exact Or.inr (Or.inr (Or.inr rfl))
        · cases h
    · cases h
  · rcases List.mem_cons.mp h with rfl | h
    · exact Or.inr (Or.inl rfl)
    · rcases List.mem_append.mp h with h | h
      · exact Or.inl (mem_escLitBody _ _ h)
      · rcases List.mem_singleton.mp h with rfl
        exact Or.inr (Or.inl rfl)

theorem escape_identifier_getLast (s : String) :
    (escape_identifier s).data.getLast? = some '"' := by
  rw [escape_identifier_data, ← List.cons_append, List.getLast?_concat]

theorem escape_literal_getLast (s : String) :
    (escape_literal s).data.getLast? = some '\'' := by
  have h2 : ('\'' :: (escLitBody s.data ++ ['\''])).getLast? = some '\'' := by
    rw [← List.cons_append, List.getLast?_concat]
  rw [escape_literal_data, List.getLast?_append, h2]
  rfl



theorem getLast?_ne_dollar_of_not_mem (l : List Char) (h : '$' ∉ l) :
    l.getLast? ≠ some '$' :=
  fun hl => h (List.mem_of_getLast?_eq_some hl)

theorem params_renderSegs : ∀ (segs : List Seg),
    (∀ seg ∈ segs, (renderSeg seg).getLast? ≠ some '$') →
    params (renderSegs segs) =
      (segs.map (fun seg => params (renderSeg seg))).flatten := by
  intro segs
  induction segs with
  | nil => intro _; rfl
  | cons s rest ih =>
    intro h
    show params (renderSeg s ++ renderSegs rest) = _
    rw [params_append_left (renderSeg s) _ (h s (List.mem_cons_self _ _)),
      ih (fun t ht => h t (List.mem_cons_of_mem _ ht))]
    rfl

theorem dollarFree_escape_identifier (s : String) (h : '$' ∉ s.data) :
    '$' ∉ (escape_identifier s).data := by
  intro hc
  rcases mem_escape_identifier s '$' hc with hc | hc
  · exact h hc
  · cases hc

theorem dollarFree_escape_literal (s : String) (h : '$' ∉ s.data) :
    '$' ∉ (escape_literal s).data := by
  intro hc
  rcases mem_escape_literal s '$' hc with hc | hc | hc | hc
  · exact h hc
  · cases hc
  · cases hc
  · cases hc

theorem dollarFree_natDisplay (n : Nat) : '$' ∉ (natDisplay n).data :=
  fun hc => (natDisplay_safe n '$' hc).1 rfl

theorem dollarFree_intDisplay (i : Int) : '$' ∉ (intDisplay i).data :=
  fun hc => (intDisplay_safe i '$' hc).1 rfl

theorem dollarFree_boolDisplay (b : Bool) : '$' ∉ (boolDisplay b).data :=
  fun hc => (boolDisplay_safe b '$' hc).1 rfl

theorem dollarFree_marginChars (s : String) (hm : marginChars s = true) :
    '$' ∉ s.data :=
  fun hc => (marginChars_safe s hm '$' hc).1 rfl

/-- The two per-segment facts C1 needs, bundled. -/
def segDollarOk (seg : Seg) : Prop :=
  (renderSeg seg).getLast? ≠ some '$' ∧ params (renderSeg seg) = []

theorem segDollarOk_raw (l : List Char) (h : '$' ∉ l) :
    segDollarOk (Seg.raw l) :=
  ⟨getLast?_ne_dollar_of_not_mem l h, params_nil_of l h⟩

theorem segDollarOk_idSeg (s : String) (h : '$' ∉ s.data) :
    segDollarOk (Seg.idSeg s) :=
  ⟨getLast?_ne_dollar_of_not_mem _ (dollarFree_escape_identifier s h),
   params_nil_of _ (dollarFree_escape_identifier s h)⟩

theorem segDollarOk_litSeg (s : String) (h : '$' ∉ s.data) :
    segDollarOk (Seg.litSeg s) :=
  ⟨getLast?_ne_dollar_of_not_mem _ (dollarFree_escape_literal s h),
   params_nil_of _ (dollarFree_escape_literal s h)⟩

theorem mapGetStr_mem_val : ∀ (m : List (String × String)) (f v : String),
    mapGetStr m f = some v → ∃ kv ∈ m, kv.2 = v := by
  intro m
  induction m with
  | nil => intro f v hg; cases hg
  | cons kv rest ih =>
    intro f v hg
    unfold mapGetStr at hg
    split at hg
    · exact ⟨kv, List.mem_cons_self _ _, by injection hg⟩
    · obtain ⟨kv', h1, h2⟩ := ih f v hg
      exact ⟨kv', List.mem_cons_of_mem _ h1, h2⟩

theorem segDollarOk_ewa (pm : List (String × String)) (f : String)
    (hf : '$' ∉ f.data) (hpm : ∀ kv ∈ pm, '$' ∉ kv.2.data) :
    ∀ seg ∈ ewaSegs pm f, segDollarOk seg := by
  have hcol : '$' ∉ ((mapGetStr pm f).getD f).data := by
    cases hg : mapGetStr pm f with
    | none => exact hf
    | some v =>
      obtain ⟨kv, hkv, rfl⟩ := mapGetStr_mem_val pm f v hg
      exact hpm kv hkv
  intro seg hseg
  simp only [ewaSegs] at hseg
  split at hseg <;>
    simp only [List.mem_cons, List.not_mem_nil, or_false] at hseg
  · rcases hseg with rfl | rfl | rfl | rfl
    · exact segDollarOk_raw _ (by decide)
    · exact segDollarOk_idSeg _ hcol
    · exact segDollarOk_raw _ (by decide)
    · exact segDollarOk_idSeg _ hf
  · rcases hseg with rfl | rfl
    · exact segDollarOk_raw _ (by decide)
    · exact segDollarOk_idSeg _ hcol

theorem segDollarOk_props (pm : List (String × String))
    (hpm : ∀ kv ∈ pm, '$' ∉ kv.2.data) :
    ∀ (props : List (String × String)),
    (∀ kv ∈ props, '$' ∉ kv.1.data) →
    ∀ seg ∈ propsSegs pm props, segDollarOk seg := by
  intro props
  induction props with
  | nil => intro _ seg hseg; cases hseg
  | cons kv rest ih =>
    intro hk seg hseg
    obtain ⟨k, v⟩ := kv
    unfold propsSegs at hseg
    rcases List.mem_append.mp hseg with h | h
    · exact segDollarOk_ewa pm k (hk (k, v) (List.mem_cons_self _ _)) hpm
        seg h
    · exact ih (fun kv hkv => hk kv (List.mem_cons_of_mem _ hkv)) seg h

theorem flatten_params_of_ok : ∀ (segs : List Seg),
    (∀ seg ∈ segs, segDollarOk seg) →
    (segs.map (fun seg => params (renderSeg seg))).flatten = [] := by
  intro segs
  induction segs with
  | nil => intro _; rfl
  | cons s rest ih =>
    intro h
    simp only [List.map_cons, List.flatten_cons,
      (h s (List.mem_cons_self _ _)).2, List.nil_append]
    exact ih (fun t ht => h t (List.mem_cons_of_mem _ ht))



set_option maxHeartbeats 1000000

theorem not_bang_contains (l : List Char) (c : Char)
    (h : (!l.contains c) = true) : c ∉ l := by
  simpa using h

theorem format_id_dollarFree (info : TableInfo)
    (hS : '$' ∉ info.schema.data) (hT : '$' ∉ info.table.data)
    (hG : '$' ∉ info.geometry_column.data) :
    '$' ∉ info.format_id.data := by
  unfold TableInfo.format_id
  intro hc
  simp only [String.data_append, List.append_assoc, List.mem_append,
    List.mem_singleton] at hc
  rcases hc with h | h | h | h | h
  · exact hS h
  · exact absurd h (by decide)
  · exact hT h
  · exact absurd h (by decide)
  · exact hG h

theorem renderSeg_raw (l : List Char) : renderSeg (Seg.raw l) = l := rfl

theorem renderSeg_idSeg (s : String) :
    renderSeg (Seg.idSeg s) = (escape_identifier s).data := rfl

theorem renderSeg_litSeg (s : String) :
    renderSeg (Seg.litSeg s) = (escape_literal s).data := rfl

theorem bboxSegs_ok (buf : Nat) (sm : Bool) (m : String)
    (hm : marginChars m = true) :
    (∀ seg ∈ bboxSegs buf sm m, (renderSeg seg).getLast? ≠ some '$') ∧
    ((bboxSegs buf sm m).map (fun seg => params (renderSeg seg))).flatten =
      ['1', '2', '3'] := by
  unfold bboxSegs
  by_cases hb : buf = 0
  · simp only [hb, if_true]
    constructor
    · intro seg hseg
      fin_cases hseg
      decide
    · simp only [List.map_cons, List.map_nil, List.flatten_cons,
        List.flatten_nil, renderSeg_raw, List.append_nil]
      decide
  · simp only [hb, if_false]
    cases sm with
    | false =>
      simp only [Bool.false_eq_true, if_false]
      constructor
      · intro seg hseg
        fin_cases hseg
        decide
      · simp only [List.map_cons, List.map_nil, List.flatten_cons,
          List.flatten_nil, renderSeg_raw, List.append_nil]
        decide
    | true =>
      simp only [if_true]
      constructor
      · intro seg hseg
        fin_cases hseg
        · decide
        · exact getLast?_ne_dollar_of_not_mem _ (dollarFree_marginChars m hm)
        · decide
      · simp only [List.map_cons, List.map_nil, List.flatten_cons,
          List.flatten_nil, renderSeg_raw, List.append_nil]
        rw [params_nil_of m.data (dollarFree_marginChars m hm)]
        decide

set_option maxHeartbeats 2000000

/-- C1, as amended (corrected): the claim of exactly one occurrence of
each placeholder fails — the tile envelope is written twice, once as the
`ST_AsMVTGeom` argument and once in the bbox search, so each of `$1`, `$2`,
`$3` occurs exactly twice (`tile_query_placeholders_cex`).  Amended: for
every `TableInfo` whose names contain no dollar sign, and every margin
rendering over the `f64` display character set, the scan of the query's
parameter placeholders yields exactly `$1 $2 $3 $1 $2 $3` — two
occurrences of each and no other placeholder. -/
theorem tile_query_placeholders (info : TableInfo) (sm : Bool) (m : String)
    (hn : namesDollarFree info = true) (hm : marginChars m = true) :
    params (build_query info sm m).data = ['1', '2', '3', '1', '2', '3'] := by
  simp only [namesDollarFree, Bool.and_eq_true] at hn
  obtain ⟨⟨⟨⟨⟨h1, h2⟩, h3⟩, h4⟩, h5⟩, h6⟩ := hn
  have hS := not_bang_contains _ _ h1
  have hT := not_bang_contains _ _ h2
  have hG := not_bang_contains _ _ h3
  have hId : ∀ s, info.id_column = some s → '$' ∉ s.data := by
    intro s hs
    rw [hs] at h4
    exact not_bang_contains _ _ h4
  have hKeys : ∀ kv ∈ info.properties, '$' ∉ kv.1.data := by
    intro kv hkv
    exact not_bang_contains _ _ ((List.all_eq_true.mp h5) kv hkv)
  have hVals : ∀ kv ∈ info.prop_mapping, '$' ∉ kv.2.data := by
    intro kv hkv
    exact not_bang_contains _ _ ((List.all_eq_true.mp h6) kv hkv)
  have hFid := format_id_dollarFree info hS hT hG
  have hbb := bboxSegs_ok (info.buffer.getD DEFAULT_BUFFER) sm m hm
  have hprops := segDollarOk_props info.prop_mapping hVals info.properties
    hKeys
  have hPflat : ((propsSegs info.prop_mapping info.properties).map
      (fun seg => params (renderSeg seg))).flatten = [] :=
    flatten_params_of_ok _ hprops
  have eFid : params (escape_literal info.format_id).data = [] :=
    params_nil_of _ (dollarFree_escape_literal _ hFid)
  have eNat : ∀ n, params (natDisplay n).data = [] := fun n =>
    params_nil_of _ (dollarFree_natDisplay n)
  have eInt : ∀ i, params (intDisplay i).data = [] := fun i =>
    params_nil_of _ (dollarFree_intDisplay i)
  have eBool : ∀ b, params (boolDisplay b).data = [] := fun b =>
    params_nil_of _ (dollarFree_boolDisplay b)
  have eS : params (escape_identifier info.schema).data = [] :=
    params_nil_of _ (dollarFree_escape_identifier _ hS)
  have eT : params (escape_identifier info.table).data = [] :=
    params_nil_of _ (dollarFree_escape_identifier _ hT)
  have eG : params (escape_identifier info.geometry_column).data = [] :=
    params_nil_of _ (dollarFree_escape_identifier _ hG)
  rw [build_query_data_eq]
  cases hid : info.id_column with
  | none =>
    rw [params_renderSegs]
    · simp only [querySegs, hid, List.map_append, List.flatten_append,
        List.map_cons, List.map_nil, List.flatten_cons, List.flatten_nil,
        renderSeg_raw, renderSeg_idSeg, renderSeg_litSeg, List.append_nil,
        List.nil_append, hPflat, hbb.2, eFid, eNat, eInt, eBool, eS, eT, eG]
      decide
    · simp only [querySegs, hid]
      intro seg hseg
      rcases List.mem_append.mp hseg with hseg | hseg
      · rcases List.mem_append.mp hseg with hseg | hseg
        · rcases List.mem_append.mp hseg with hseg | hseg
          · rcases List.mem_append.mp hseg with hseg | hseg
            · rcases List.mem_append.mp hseg with hseg | hseg
              · rcases List.mem_append.mp hseg with hseg | hseg
                · rcases List.mem_append.mp hseg with hseg | hseg
                  · fin_cases hseg
                    · decide
                    · exact (segDollarOk_litSeg _ hFid).1
                    · decide
                    · exact (segDollarOk_raw _
                        (dollarFree_natDisplay _)).1
                    · decide
                    · decide
                  · cases hseg
                · fin_cases hseg
                  · decide
                  · exact (segDollarOk_idSeg _ hG).1
                  · decide
                  · exact (segDollarOk_raw _ (dollarFree_natDisplay _)).1
                  · decide
                  · exact (segDollarOk_raw _ (dollarFree_natDisplay _)).1
                  · decide
                  · exact (segDollarOk_raw _ (dollarFree_boolDisplay _)).1
                  · decide
              · cases hseg
            · exact (hprops seg hseg).1
          · fin_cases hseg
            · decide
            · exact (segDollarOk_idSeg _ hS).1
            · decide
            · exact (segDollarOk_idSeg _ hT).1
            · decide
            · exact (segDollarOk_idSeg _ hG).1
            · decide
        · exact hbb.1 seg hseg
      · fin_cases hseg
        · decide
        · exact (segDollarOk_raw _ (dollarFree_intDisplay _)).1
        · decide
  | some idc =>
    have hIdc := hId idc hid
    have hEwa := segDollarOk_ewa info.prop_mapping idc hIdc hVals
    have hEflat : ((ewaSegs info.prop_mapping idc).map
        (fun seg => params (renderSeg seg))).flatten = [] :=
      flatten_params_of_ok _ hEwa
    have eIdc : params (escape_literal idc).data = [] :=
      params_nil_of _ (dollarFree_escape_literal _ hIdc)
    rw [params_renderSegs]
    · simp only [querySegs, hid, List.map_append, List.flatten_append,
        List.map_cons, List.map_nil, List.flatten_cons, List.flatten_nil,
        renderSeg_raw, renderSeg_idSeg, renderSeg_litSeg, List.append_nil,
        List.nil_append, hPflat, hEflat, hbb.2, eFid, eIdc, eNat, eInt,
        eBool, eS, eT, eG]
      decide
    · simp only [querySegs, hid]
      intro seg hseg
      rcases List.mem_append.mp hseg with hseg | hseg
      · rcases List.mem_append.mp hseg with hseg | hseg
        · rcases List.mem_append.mp hseg with hseg | hseg
          · rcases List.mem_append.mp hseg with hseg | hseg
            · rcases List.mem_append.mp hseg with hseg | hseg
              · rcases List.mem_append.mp hseg with hseg | hseg
                · rcases List.mem_append.mp hseg with hseg | hseg
                  · fin_cases hseg
                    · decide
                    · exact (segDollarOk_litSeg _ hFid).1
                    · decide
                    · exact (segDollarOk_raw _
                        (dollarFree_natDisplay _)).1
                    · decide
                    · decide
                  · fin_cases hseg
                    · decide
                    · exact (segDollarOk_litSeg _ hIdc).1
                · fin_cases hseg
                  · decide
                  · exact (segDollarOk_idSeg _ hG).1
                  · decide
                  · exact (segDollarOk_raw _ (dollarFree_natDisplay _)).1
                  · decide
                  · exact (segDollarOk_raw _ (dollarFree_natDisplay _)).1
                  · decide
                  · exact (segDollarOk_raw _ (dollarFree_boolDisplay _)).1
                  · decide
              · exact (hEwa seg hseg).1
            · exact (hprops seg hseg).1
          · fin_cases hseg
            · decide
            · exact (segDollarOk_idSeg _ hS).1
            · decide
            · exact (segDollarOk_idSeg _ hT).1
            · decide
            · exact (segDollarOk_idSeg _ hG).1
            · decide
        · exact hbb.1 seg hseg
      · fin_cases hseg
        · decide
        · exact (segDollarOk_raw _ (dollarFree_intDisplay _)).1
        · decide

/-- Witness for `tile_query_placeholders`: the default table info. -/
theorem tile_query_placeholders_witness :
    params (build_query dInfo true "0.015625").data =
      ['1', '2', '3', '1', '2', '3'] :=
  tile_query_placeholders dInfo true "0.015625" (by decide) (by decide)

set_option maxRecDepth 10000

/-- Counterexample to C1 as stated: in the query built from the default
table info, the placeholder `$1` occurs twice, not exactly once (`params`
lists the character after each `$`, one entry per placeholder
occurrence). -/
theorem tile_query_placeholders_cex :
    (params (build_query dInfo false "0.015625").data).count '1' = 2 := by
  decide

theorem head_ne_of_eq (l : List Char) (q c : Char) (hh : l.head? = some c)
    (h : c ≠ q) : l.head? ≠ some q := by
  rw [hh]
  intro hx
  injection hx with hx
  exact h hx

theorem scan_identQ_eq_out (b : List Char) (hb : b.head? ≠ some '"') :
    scan .identQ b = scan .out b := by
  cases b with
  | nil => rfl
  | cons c r =>
    have hc : c ≠ '"' := by
      intro h
      exact hb (by rw [h]; rfl)
    simp [scan, hc]

theorem scan_litQ_eq_out (b : List Char) (hb : b.head? ≠ some '\'') :
    scan .litQ b = scan .out b := by
  cases b with
  | nil => rfl
  | cons c r =>
    have hc : c ≠ '\'' := by
      intro h
      exact hb (by rw [h]; rfl)
    simp [scan, hc]

theorem scan_ident_body : ∀ (l : List Char) (b : List Char),
    scan .ident (escIdentBody l ++ '"' :: b) = scan .identQ b := by
  intro l
  induction l with
  | nil => intro b; simp [escIdentBody, scan]
  | cons c l' ih =>
    intro b
    unfold escIdentBody
    by_cases hc : c = '"'
    · subst hc
      simp only [if_pos rfl, List.cons_append]
      show scan .ident ('"' :: ('"' :: (escIdentBody l' ++ '"' :: b))) = _
      rw [show scan .ident ('"' :: ('"' :: (escIdentBody l' ++ '"' :: b))) =
        scan .identQ ('"' :: (escIdentBody l' ++ '"' :: b)) by simp [scan]]
      rw [show scan .identQ ('"' :: (escIdentBody l' ++ '"' :: b)) =
        scan .ident (escIdentBody l' ++ '"' :: b) by simp [scan]]
      exact ih b
    · rw [if_neg hc, List.cons_append]
      rw [show scan .ident (c :: (escIdentBody l' ++ '"' :: b)) =
        scan .ident (escIdentBody l' ++ '"' :: b) by simp [scan, hc]]
      exact ih b

theorem scan_lit_body : ∀ (l : List Char) (b : List Char),
    scan .lit (escLitBody l ++ '\'' :: b) = scan .litQ b := by
  intro l
  induction l with
  | nil => intro b; simp [escLitBody, scan]
  | cons c l' ih =>
    intro b
    unfold escLitBody
    by_cases hc : c = '\'' ∨ c = '\\'
    · rw [if_pos hc]
      rcases hc with rfl | rfl
      · simp only [List.cons_append]
        rw [show scan .lit ('\'' :: ('\'' :: (escLitBody l' ++ '\'' :: b))) =
          scan .litQ ('\'' :: (escLitBody l' ++ '\'' :: b)) by simp [scan]]
        rw [show scan .litQ ('\'' :: (escLitBody l' ++ '\'' :: b)) =
          scan .lit (escLitBody l' ++ '\'' :: b) by simp [scan]]
        exact ih b
      · simp only [List.cons_append]
        rw [show scan .lit ('\\' :: ('\\' :: (escLitBody l' ++ '\'' :: b))) =
          scan .lit ('\\' :: (escLitBody l' ++ '\'' :: b)) by simp [scan]]
        rw [show scan .lit ('\\' :: (escLitBody l' ++ '\'' :: b)) =
          scan .lit (escLitBody l' ++ '\'' :: b) by simp [scan]]
        exact ih b
    · rw [if_neg hc]
      push_neg at hc
      rw [List.cons_append]
      rw [show scan .lit (c :: (escLitBody l' ++ '\'' :: b)) =
        scan .lit (escLitBody l' ++ '\'' :: b) by simp [scan, hc.1]]
      exact ih b

theorem scan_out_raw : ∀ (l : List Char),
    (∀ c ∈ l, c ≠ '"' ∧ c ≠ '\'') → ∀ (b : List Char),
    scan .out (l ++ b) = (scan .out b).map (fun o => l ++ o) := by
  intro l
  induction l with
  | nil =>
    intro _ b
    simp
  | cons c l' ih =>
    intro h b
    have hc := h c (List.mem_cons_self _ _)
    rw [List.cons_append]
    rw [show scan .out (c :: (l' ++ b)) =
      (scan .out (l' ++ b)).map (fun o => c :: o) by
        simp [scan, hc.1, hc.2]]
    rw [ih (fun d hd => h d (List.mem_cons_of_mem _ hd)) b]
    simp [Option.map_map]
    rfl

theorem scan_out_ident (s : String) (b : List Char)
    (hb : b.head? ≠ some '"') :
    scan .out ((escape_identifier s).data ++ b) = scan .out b := by
  rw [escape_identifier_data, List.cons_append]
  rw [show scan .out ('"' :: (escIdentBody s.data ++ ['"'] ++ b)) =
    scan .ident (escIdentBody s.data ++ ['"'] ++ b) by simp [scan]]
  rw [List.append_assoc, List.singleton_append]
  rw [scan_ident_body]
  exact scan_identQ_eq_out b hb

theorem scan_out_lit (s : String) (b : List Char)
    (hb : b.head? ≠ some '\'') :
    scan .out ((escape_literal s).data ++ b) =
      (scan .out b).map (fun o =>
        (if s.data.contains '\\' then [' ', 'E'] else []) ++ o) := by
  rw [escape_literal_data]
  have hlit : scan .out ('\'' :: (escLitBody s.data ++ ['\'']) ++ b) =
      scan .out b := by
    rw [List.cons_append]
    rw [show scan .out ('\'' :: (escLitBody s.data ++ ['\''] ++ b)) =
      scan .lit (escLitBody s.data ++ ['\''] ++ b) by simp [scan]]
    rw [List.append_assoc, List.singleton_append, scan_lit_body]
    exact scan_litQ_eq_out b hb
  cases hP : s.data.contains '\\' with
  | false =>
    simp only [hP, Bool.false_eq_true, if_false, List.nil_append]
    rw [hlit]
    cases scan .out b <;> rfl
  | true =>
    simp only [hP, if_true]
    rw [List.append_assoc]
    rw [show scan .out ([' ', 'E'] ++ ('\'' :: (escLitBody s.data ++ ['\'']) ++ b)) =
      (scan .out ('\'' :: (escLitBody s.data ++ ['\'']) ++ b)).map
        (fun o => [' ', 'E'] ++ o) from
      scan_out_raw [' ', 'E'] (by decide) _]
    rw [hlit]

theorem scan_renderSegs : ∀ (segs : List Seg), segsScanOk segs →
    scan .out (renderSegs segs) = some ((segs.map segOuts).flatten) := by
  intro segs
  induction segs with
  | nil => intro _; rfl
  | cons s rest ih =>
    intro h
    cases s with
    | raw l =>
      obtain ⟨hl, hrest⟩ := h
      show scan .out (l ++ renderSegs rest) = _
      rw [scan_out_raw l hl, ih hrest]
      simp [segOuts]
    | idSeg s =>
      obtain ⟨hb, hrest⟩ := h
      show scan .out ((escape_identifier s).data ++ renderSegs rest) = _
      rw [scan_out_ident s _ hb, ih hrest]
      simp [segOuts]
    | litSeg s =>
      obtain ⟨hb, hrest⟩ := h
      show scan .out ((escape_literal s).data ++ renderSegs rest) = _
      rw [scan_out_lit s _ hb, ih hrest]
      simp [segOuts]



theorem segsScanOk_ewa (pm : List (String × String)) (k : String)
    (cont : List Seg) (hc : (renderSegs cont).head? ≠ some '"')
    (hcok : segsScanOk cont) : segsScanOk (ewaSegs pm k ++ cont) := by
  simp only [ewaSegs]
  split
  · simp only [List.cons_append, List.nil_append]
    exact ⟨by decide, head_ne_of_eq _ _ ' ' rfl (by decide), by decide, hc,
      hcok⟩
  · simp only [List.cons_append, List.nil_append]
    exact ⟨by decide, hc, hcok⟩

theorem props_head_ne (pm : List (String × String))
    (props : List (String × String)) (cont : List Seg) (q : Char)
    (hq : q ≠ ',') (hc : (renderSegs cont).head? ≠ some q) :
    (renderSegs (propsSegs pm props ++ cont)).head? ≠ some q := by
  cases props with
  | nil => exact hc
  | cons kv rest =>
    obtain ⟨k, v⟩ := kv
    show (renderSegs ((ewaSegs pm k ++ propsSegs pm rest) ++ cont)).head? ≠
      some q
    simp only [ewaSegs]
    split
    · exact head_ne_of_eq _ _ ',' rfl (fun h => hq h.symm)
    · exact head_ne_of_eq _ _ ',' rfl (fun h => hq h.symm)

theorem segsScanOk_props (pm : List (String × String)) :
    ∀ (props : List (String × String)) (cont : List Seg),
    (renderSegs cont).head? ≠ some '"' → segsScanOk cont →
    segsScanOk (propsSegs pm props ++ cont) := by
  intro props
  induction props with
  | nil => intro cont hc hcok; exact hcok
  | cons kv rest ih =>
    intro cont hc hcok
    obtain ⟨k, v⟩ := kv
    show segsScanOk ((ewaSegs pm k ++ propsSegs pm rest) ++ cont)
    rw [List.append_assoc]
    exact segsScanOk_ewa pm k _
      (props_head_ne pm rest cont '"' (by decide) hc) (ih cont hc hcok)

theorem segsScanOk_bbox (buf : Nat) (sm : Bool) (m : String)
    (hm : marginChars m = true) (cont : List Seg) (hcok : segsScanOk cont) :
    segsScanOk (bboxSegs buf sm m ++ cont) := by
  unfold bboxSegs
  by_cases hb : buf = 0
  · simp only [hb, if_true, List.cons_append, List.nil_append]
    exact ⟨by decide, hcok⟩
  · simp only [hb, if_false]
    cases sm with
    | false =>
      simp only [Bool.false_eq_true, if_false, List.cons_append,
        List.nil_append]
      exact ⟨by decide, hcok⟩
    | true =>
      simp only [if_true, List.cons_append, List.nil_append]
      refine ⟨by decide, ?_, by decide, hcok⟩
      intro c hcm
      have h := marginChars_safe m hm c hcm
      exact ⟨h.2.1, h.2.2.1⟩

theorem segOuts_ewa_safe (pm : List (String × String)) (k : String) :
    ∀ seg ∈ ewaSegs pm k, ∀ c ∈ segOuts seg, badSqlChar c = false := by
  intro seg hseg
  simp only [ewaSegs] at hseg
  split at hseg <;>
    simp only [List.mem_cons, List.not_mem_nil, or_false] at hseg
  · rcases hseg with rfl | rfl | rfl | rfl
    · decide
    · intro c hc; cases hc
    · decide
    · intro c hc; cases hc
  · rcases hseg with rfl | rfl
    · decide
    · intro c hc; cases hc

theorem segOuts_props_safe (pm : List (String × String)) :
    ∀ (props : List (String × String)),
    ∀ seg ∈ propsSegs pm props, ∀ c ∈ segOuts seg, badSqlChar c = false := by
  intro props
  induction props with
  | nil => intro seg hseg; cases hseg
  | cons kv rest ih =>
    intro seg hseg
    obtain ⟨k, v⟩ := kv
    rcases List.mem_append.mp hseg with h | h
    · exact segOuts_ewa_safe pm k seg h
    · exact ih seg h

theorem segOuts_bbox_safe (buf : Nat) (sm : Bool) (m : String)
    (hm : marginChars m = true) :
    ∀ seg ∈ bboxSegs buf sm m, ∀ c ∈ segOuts seg,
    badSqlChar c = false := by
  intro seg hseg
  unfold bboxSegs at hseg
  by_cases hb : buf = 0
  · rw [if_pos hb] at hseg
    fin_cases hseg
    decide
  · rw [if_neg hb] at hseg
    cases sm with
    | false =>
      simp only [Bool.false_eq_true, if_false] at hseg
      fin_cases hseg
      decide
    | true =>
      simp only [if_true] at hseg
      fin_cases hseg
      · decide
      · intro c hc
        exact (marginChars_safe m hm c hc).2.2.2
      · decide

theorem mem_outs (segs : List Seg) (c : Char)
    (h : c ∈ (segs.map segOuts).flatten) : ∃ seg ∈ segs, c ∈ segOuts seg := by
  rcases List.mem_flatten.mp h with ⟨x, hx, hcx⟩
  rcases List.mem_map.mp hx with ⟨seg, hseg, rfl⟩
  exact ⟨seg, hseg, hcx⟩



theorem all_safe_of (l : List Char)
    (h : l.all (fun c => !badSqlChar c) = true) :
    ∀ c ∈ l, badSqlChar c = false := by
  intro c hc
  have := (List.all_eq_true.mp h) c hc
  simpa using this

set_option maxHeartbeats 2000000

/-- C2, as amended (corrected): the claim fails for the bounds query,
which interpolates the names raw (`bounds_query_unescaped_cex`); for the
tile query it holds in full force: for every `TableInfo` — whatever
double quotes, backslashes, NULs or semicolons its names contain — every
name flows through identifier or literal escaping, so scanning the query
under the PostgreSQL quoting rules terminates every quoted token and
leaves no double quote, backslash, NUL or semicolon outside a quoted
token. -/
theorem tile_query_identifier_safety (info : TableInfo) (sm : Bool)
    (m : String) (hm : marginChars m = true) :
    ∃ outs, scan .out (build_query info sm m).data = some outs ∧
      ∀ c ∈ outs, badSqlChar c = false := by
  rw [build_query_data_eq]
  cases hid : info.id_column with
  | none =>
    have hok : segsScanOk (querySegs info sm m) := by
      simp only [querySegs, hid, List.append_assoc, List.cons_append,
        List.nil_append]
      refine ⟨by decide,
        head_ne_of_eq _ _ ',' rfl (by decide),
        by decide,
        (fun c hc => ⟨(natDisplay_safe _ c hc).2.1,
          (natDisplay_safe _ c hc).2.2.1⟩),
        by decide,
        head_ne_of_eq _ _ ')' rfl (by decide),
        by decide,
        head_ne_of_eq _ _ ')' rfl (by decide),
        by decide,
        (fun c hc => ⟨(natDisplay_safe _ c hc).2.1,
          (natDisplay_safe _ c hc).2.2.1⟩),
        by decide,
        (fun c hc => ⟨(natDisplay_safe _ c hc).2.1,
          (natDisplay_safe _ c hc).2.2.1⟩),
        by decide,
        (fun c hc => ⟨(boolDisplay_safe _ c hc).2.1,
          (boolDisplay_safe _ c hc).2.2.1⟩),
        by decide,
        ?_⟩
      refine segsScanOk_props _ _ _
        (head_ne_of_eq _ _ '\n' rfl (by decide)) ?_
      refine ⟨by decide,
        head_ne_of_eq _ _ '.' rfl (by decide),
        by decide,
        head_ne_of_eq _ _ '\n' rfl (by decide),
        by decide,
        head_ne_of_eq _ _ ' ' rfl (by decide),
        by decide,
        ?_⟩
      refine segsScanOk_bbox _ _ _ hm _ ?_
      exact ⟨by decide,
        (fun c hc => ⟨(intDisplay_safe _ c hc).2.1,
          (intDisplay_safe _ c hc).2.2.1⟩),
        by decide, trivial⟩
    refine ⟨_, scan_renderSegs _ hok, ?_⟩
    intro c hc
    rcases mem_outs _ _ hc with ⟨seg, hseg, hcs⟩
    simp only [querySegs, hid] at hseg
    rcases List.mem_append.mp hseg with hseg | hseg
    · rcases List.mem_append.mp hseg with hseg | hseg
      · rcases List.mem_append.mp hseg with hseg | hseg
        · rcases List.mem_append.mp hseg with hseg | hseg
          · rcases List.mem_append.mp hseg with hseg | hseg
            · rcases List.mem_append.mp hseg with hseg | hseg
              · rcases List.mem_append.mp hseg with hseg | hseg
                · fin_cases hseg
                  · exact all_safe_of _ (by decide) c hcs
                  · simp only [segOuts] at hcs
                    split at hcs
                    · exact all_safe_of _ (by decide) c hcs
                    · cases hcs
                  · exact all_safe_of _ (by decide) c hcs
                  · exact (natDisplay_safe _ c hcs).2.2.2
                  · exact all_safe_of _ (by decide) c hcs
                  · simp only [segOuts] at hcs
                    split at hcs
                    · exact all_safe_of _ (by decide) c hcs
                    · cases hcs
                · cases hseg
              · fin_cases hseg
                · exact all_safe_of _ (by decide) c hcs
                · cases hcs
                · exact all_safe_of _ (by decide) c hcs
                · exact (natDisplay_safe _ c hcs).2.2.2
                · exact all_safe_of _ (by decide) c hcs
                · exact (natDisplay_safe _ c hcs).2.2.2
                · exact all_safe_of _ (by decide) c hcs
                · exact (boolDisplay_safe _ c hcs).2.2.2
                · exact all_safe_of _ (by decide) c hcs
            · cases hseg
          · exact segOuts_props_safe _ _ seg hseg c hcs
        · fin_cases hseg
          · exact all_safe_of _ (by decide) c hcs
          · cases hcs
          · exact all_safe_of _ (by decide) c hcs
          · cases hcs
          · exact all_safe_of _ (by decide) c hcs
          · cases hcs
          · exact all_safe_of _ (by decide) c hcs
      · exact segOuts_bbox_safe _ _ _ hm seg hseg c hcs
    · fin_cases hseg
      · exact all_safe_of _ (by decide) c hcs
      · exact (intDisplay_safe _ c hcs).2.2.2
      · exact all_safe_of _ (by decide) c hcs
  | some idc =>
    have hok : segsScanOk (querySegs info sm m) := by
      simp only [querySegs, hid, List.append_assoc, List.cons_append,
        List.nil_append]
      refine ⟨by decide,
        head_ne_of_eq _ _ ',' rfl (by decide),
        by decide,
        (fun c hc => ⟨(natDisplay_safe _ c hc).2.1,
          (natDisplay_safe _ c hc).2.2.1⟩),
        by decide,
        head_ne_of_eq _ _ ',' rfl (by decide),
        by decide,
        head_ne_of_eq _ _ ')' rfl (by decide),
        by decide,
        head_ne_of_eq _ _ ')' rfl (by decide),
        by decide,
        (fun c hc => ⟨(natDisplay_safe _ c hc).2.1,
          (natDisplay_safe _ c hc).2.2.1⟩),
        by decide,
        (fun c hc => ⟨(natDisplay_safe _ c hc).2.1,
          (natDisplay_safe _ c hc).2.2.1⟩),
        by decide,
        (fun c hc => ⟨(boolDisplay_safe _ c hc).2.1,
          (boolDisplay_safe _ c hc).2.2.1⟩),
        by decide,
        ?_⟩
      refine segsScanOk_ewa _ _ _
        (props_head_ne _ _ _ '"' (by decide)
          (head_ne_of_eq _ _ '\n' rfl (by decide))) ?_
      refine segsScanOk_props _ _ _
        (head_ne_of_eq _ _ '\n' rfl (by decide)) ?_
      refine ⟨by decide,
        head_ne_of_eq _ _ '.' rfl (by decide),
        by decide,
        head_ne_of_eq _ _ '\n' rfl (by decide),
        by decide,
        head_ne_of_eq _ _ ' ' rfl (by decide),
        by decide,
        ?_⟩
      refine segsScanOk_bbox _ _ _ hm _ ?_
      exact ⟨by decide,
        (fun c hc => ⟨(intDisplay_safe _ c hc).2.1,
          (intDisplay_safe _ c hc).2.2.1⟩),
        by decide, trivial⟩
    refine ⟨_, scan_renderSegs _ hok, ?_⟩
    intro c hc
    rcases mem_outs _ _ hc with ⟨seg, hseg, hcs⟩
    simp only [querySegs, hid] at hseg
    rcases List.mem_append.mp hseg with hseg | hseg
    · rcases List.mem_append.mp hseg with hseg | hseg
      · rcases List.mem_append.mp hseg with hseg | hseg
        · rcases List.mem_append.mp hseg with hseg | hseg
          · rcases List.mem_append.mp hseg with hseg | hseg
            · rcases List.mem_append.mp hseg with hseg | hseg
              · rcases List.mem_append.mp hseg with hseg | hseg
                · fin_cases hseg
                  · exact all_safe_of _ (by decide) c hcs
                  · simp only [segOuts] at hcs
                    split at hcs
                    · exact all_safe_of _ (by decide) c hcs
                    · cases hcs
                  · exact all_safe_of _ (by decide) c hcs
                  · exact (natDisplay_safe _ c hcs).2.2.2
                  · exact all_safe_of _ (by decide) c hcs
                  · simp only [segOuts] at hcs
                    split at hcs
                    · exact all_safe_of _ (by decide) c hcs
                    · cases hcs
                · fin_cases hseg
                  · exact all_safe_of _ (by decide) c hcs
                  · simp only [segOuts] at hcs
                    split at hcs
                    · exact all_safe_of _ (by decide) c hcs
                    · cases hcs
              · fin_cases hseg
                · exact all_safe_of _ (by decide) c hcs
                · cases hcs
                · exact all_safe_of _ (by decide) c hcs
                · exact (natDisplay_safe _ c hcs).2.2.2
                · exact all_safe_of _ (by decide) c hcs
                · exact (natDisplay_safe _ c hcs).2.2.2
                · exact all_safe_of _ (by decide) c hcs
                · exact (boolDisplay_safe _ c hcs).2.2.2
                · exact all_safe_of _ (by decide) c hcs
            · exact segOuts_ewa_safe _ _ seg hseg c hcs
          · exact segOuts_props_safe _ _ seg hseg c hcs
        · fin_cases hseg
          · exact all_safe_of _ (by decide) c hcs
          · cases hcs
          · exact all_safe_of _ (by decide) c hcs
          · cases hcs
          · exact all_safe_of _ (by decide) c hcs
          · cases hcs
          · exact all_safe_of _ (by decide) c hcs
      · exact segOuts_bbox_safe _ _ _ hm seg hseg c hcs
    · fin_cases hseg
      · exact all_safe_of _ (by decide) c hcs
      · exact (intDisplay_safe _ c hcs).2.2.2
      · exact all_safe_of _ (by decide) c hcs

/-- Witness for `tile_query_identifier_safety`: the default table info. -/
theorem tile_query_identifier_safety_witness :
    ∃ outs, scan .out (build_query dInfo true "0.015625").data = some outs ∧
      ∀ c ∈ outs, badSqlChar c = false :=
  tile_query_identifier_safety dInfo true "0.015625" (by decide)

/-- Counterexample to C2 as stated: a schema name containing a semicolon
reaches the bounds query unescaped — the semicolon stands outside every
quoted token of the SQL text. -/
theorem bounds_query_unescaped_cex :
    ';' ∈ dInfoSemi.schema.data ∧
    ∃ outs, scan .out (boundsQuery dInfoSemi).data = some outs ∧
      ';' ∈ outs := by
  refine ⟨by decide, _, rfl, ?_⟩
  decide

end Martin
